import Mathlib

/-!
Shallow embedding of the work-distribution core of the wanly-api repository.

The definitions below translate, line for line, the handlers in
`app/routes/segments.py` (`claim_next_segment`, `update_segment`,
`retry_segment`, `delete_segment`, `_resolve_wildcards`, `_resolve_loras`)
and `app/routes/jobs.py` (`reorder_jobs`) together with the ORM rows they
touch (`app/models.py`).  Database rows become structures, the session
becomes an explicit `DBState`, timestamps become `Int` (minutes), and
HTTP errors become the `HError` structure carrying the status code and
detail string the code raises.  `random.choice` is modelled by an explicit
choice function passed as a parameter.
-/

namespace Wanly

/-- An HTTPException: status code and detail message. -/
structure HError where
  code : Nat
  detail : String
deriving DecidableEq

/-- The `segments` table row (`app/models.py`), restricted to the columns the
work-distribution core reads or writes. -/
structure Segment where
  id : Nat
  jobId : Nat
  index : Nat
  status : String
  workerId : Option Nat
  workerName : Option String
  claimedAt : Option Int
  completedAt : Option Int
  createdAt : Int
  startImage : Option String
  outputPath : Option String
  lastFramePath : Option String
  errorMessage : Option String
  progressLog : Option String
  autoFinalize : Bool
deriving DecidableEq

/-- The `jobs` table row (`app/models.py`), restricted to the columns the core
reads or writes. -/
structure Job where
  id : Nat
  userId : Nat
  status : String
  priority : Int
  startingImage : Option String
  width : Int
  height : Int
  fps : Int
  seed : Int
deriving DecidableEq

/-- The `videos` table row (`app/models.py`). -/
structure Video where
  id : Nat
  jobId : Nat
  status : String
deriving DecidableEq

/-- The database state seen by one request, plus the list of background
stitch tasks scheduled via `background_tasks.add_task(stitch_video, ...)`. -/
structure DBState where
  segments : List Segment
  jobs : List Job
  videos : List Video
  nextVideoId : Nat
  stitchTasks : List (Nat × Nat)
deriving DecidableEq

/-- `db.get(Job, jid)`. -/
def findJob (st : DBState) (jid : Nat) : Option Job :=
  st.jobs.find? (fun j => j.id == jid)

/-- `db.get(Segment, sid)`. -/
def findSeg (st : DBState) (sid : Nat) : Option Segment :=
  st.segments.find? (fun g => g.id == sid)

/-- `{st with just the status of job jid set to s}` — the effect of
`job.status = s` followed by commit. -/
def setJobStatus (st : DBState) (jid : Nat) (s : String) : DBState :=
  {st with jobs := st.jobs.map (fun j => if j.id == jid then {j with status := s} else j)}

/-! ## Stale-claim sweep (`claim_next_segment`, lines 175-189) -/

/-- The stale filter of the sweep query:
`Segment.status.in_(["claimed", "processing"]) ∧ Segment.claimed_at < now - 30min`. -/
def isStale (now : Int) (g : Segment) : Bool :=
  (g.status == "claimed" || g.status == "processing") &&
    (match g.claimedAt with
     | some t => decide (t < now - 30)
     | none => false)

/-- The per-row reset applied to a stale segment. -/
def resetSeg (g : Segment) : Segment :=
  {g with status := "pending", workerId := none, workerName := none,
          claimedAt := none, progressLog := none}

/-- One row of the sweep: reset if stale, otherwise untouched. -/
def sweepSeg (now : Int) (g : Segment) : Segment :=
  if isStale now g then resetSeg g else g

/-- The whole stale-reclamation sweep that opens every `claim_next_segment`
call. -/
def sweep (now : Int) (st : DBState) : DBState :=
  {st with segments := st.segments.map (sweepSeg now)}

/-! ## Selection (`claim_next_segment`, lines 191-198) -/

/-- One candidate row of the selection join:
`Segment.status == "pending" ∧ Job.status ∈ ["pending", "processing"]`,
paired with its owning job. -/
def eligPair (st : DBState) (g : Segment) : Option (Segment × Job) :=
  match findJob st g.jobId with
  | some j =>
      if g.status == "pending" && (j.status == "pending" || j.status == "processing")
      then some (g, j) else none
  | none => none

/-- All rows of the selection join. -/
def eligPairs (st : DBState) : List (Segment × Job) :=
  st.segments.filterMap (eligPair st)

/-- The selection sort key comparison:
`order_by(Job.priority.asc(), Segment.created_at.asc())`. -/
def keyLe (a b : Segment × Job) : Bool :=
  decide (a.2.priority < b.2.priority) ||
    (a.2.priority == b.2.priority && decide (a.1.createdAt ≤ b.1.createdAt))

/-- Fold picking a key-minimal candidate, first row winning ties. -/
def pickMin (p : Segment × Job) (l : List (Segment × Job)) : Segment × Job :=
  l.foldl (fun best q => if keyLe best q then best else q) p

/-- `.limit(1)` over the ordered candidates: a key-minimal row, or none. -/
def selMin : List (Segment × Job) → Option (Segment × Job)
  | [] => none
  | p :: l => some (pickMin p l)

/-- The wire view returned by `claim_next_segment` (`SegmentClaimResponse`),
restricted to the fields the core computes. -/
structure ClaimView where
  id : Nat
  jobId : Nat
  index : Nat
  startImage : Option String
  initialReferenceImage : Option String
  width : Int
  height : Int
  fps : Int
  seed : Int
deriving DecidableEq

/-- Start-image chaining (`claim_next_segment`, lines 213-225): explicit
segment start image, else the job starting image for index 0, else the
previous segment's last-frame artifact. Not persisted. -/
def resolveStartImage (st : DBState) (g : Segment) (j : Job) : Option String :=
  match g.startImage with
  | some si => some si
  | none =>
      if g.index == 0 then j.startingImage
      else
        match st.segments.find? (fun gg => gg.jobId == j.id && gg.index == g.index - 1) with
        | some prev => prev.lastFramePath
        | none => none

/-- The claim update of the selected row (`claim_next_segment`, lines
203-207): status `claimed`, worker identity and name recorded, claim
timestamp set. -/
def claimedSeg (now : Int) (wid : Nat) (wname : Option String) (g : Segment) : Segment :=
  {g with status := "claimed", workerId := some wid, workerName := wname,
          claimedAt := some now}

/-- Selection and claim update, run on the already-swept state
(`claim_next_segment`, lines 191-249). -/
def claimStage2 (now : Int) (wid : Nat) (wname : Option String) (st : DBState) :
    Option ClaimView × DBState :=
  match selMin (eligPairs st) with
  | none => (none, st)
  | some (g, j) =>
      let g2 : Segment := claimedSeg now wid wname g
      let segs2 := st.segments.map (fun gg => if gg.id == g.id then g2 else gg)
      let jobs2 := st.jobs.map (fun jj =>
        if jj.id == j.id && jj.status == "pending" then {jj with status := "processing"} else jj)
      (some ⟨g.id, g.jobId, g.index, resolveStartImage st g j, j.startingImage,
             j.width, j.height, j.fps, j.seed⟩,
       {st with segments := segs2, jobs := jobs2})

/-- `claim_next_segment` (`app/routes/segments.py`, lines 169-249): the stale
sweep followed by skip-locked selection and the claim update, one atomic
transaction. -/
def claimNext (now : Int) (wid : Nat) (wname : Option String) (st : DBState) :
    Option ClaimView × DBState :=
  claimStage2 now wid wname (sweep now st)

/-- A serialized run of `claim_next_segment` calls, each `(time, worker id,
worker name)`; returns the claimed segment id of each call in order. -/
def runClaims (st : DBState) : List (Int × Nat × Option String) → List (Option Nat) × DBState
  | [] => ([], st)
  | c :: rest =>
      let r := claimNext c.1 c.2.1 c.2.2 st
      let rr := runClaims r.2 rest
      ((r.1.map (fun v => v.id)) :: rr.1, rr.2)

/-! ## `update_segment` (`app/routes/segments.py`, lines 252-302) -/

/-- The PATCH body (`SegmentStatusUpdate`). -/
structure StatusUpdateBody where
  status : Option String
  outputPath : Option String
  lastFramePath : Option String
  errorMessage : Option String
  progressLog : Option String
deriving DecidableEq

/-- Field-by-field application of the PATCH body to the segment row
(lines 263-274): each supplied field overwrites, `completed_at` is stamped
on the first transition into `completed`/`failed`. -/
def applyBody (now : Int) (b : StatusUpdateBody) (g : Segment) : Segment :=
  let g1 := match b.status with
    | some v =>
        {g with status := v,
                completedAt :=
                  if (v == "completed" || v == "failed") && g.completedAt == none
                  then some now else g.completedAt}
    | none => g
  let g2 := match b.outputPath with
    | some v => {g1 with outputPath := some v}
    | none => g1
  let g3 := match b.lastFramePath with
    | some v => {g2 with lastFramePath := some v}
    | none => g2
  let g4 := match b.errorMessage with
    | some v => {g3 with errorMessage := some v}
    | none => g3
  match b.progressLog with
  | some v => {g4 with progressLog := some v}
  | none => g4

/-- The active-set filter of the job-resolution check (lines 281-287). -/
def isActive (g : Segment) : Bool :=
  g.status == "pending" || g.status == "claimed" || g.status == "processing"

/-- `update_segment`: apply the PATCH body, then, when a terminal segment
status was reported and the job's active set is empty, resolve the job to
`finalized` (creating a pending Video and scheduling the stitch task),
`failed`, or `awaiting`. -/
def updateSegment (now : Int) (sid : Nat) (b : StatusUpdateBody) (st : DBState) :
    Except HError (Segment × DBState) :=
  match findSeg st sid with
  | none => .error ⟨404, "Segment not found"⟩
  | some g =>
      let g2 := applyBody now b g
      let st1 : DBState :=
        {st with segments := st.segments.map (fun gg => if gg.id == sid then g2 else gg)}
      match b.status with
      | some v =>
          if v == "completed" || v == "failed" then
            match findJob st1 g.jobId with
            | none => .ok (g2, st1)
            | some j =>
                let active := st1.segments.filter (fun gg => gg.jobId == j.id && isActive gg)
                if active.length == 0 then
                  if g2.autoFinalize && v == "completed" then
                    let vid := st1.nextVideoId
                    let stF := setJobStatus st1 j.id "finalized"
                    .ok (g2,
                      { stF with
                        videos := st1.videos ++ [⟨vid, j.id, "pending"⟩],
                        nextVideoId := vid + 1,
                        stitchTasks := st1.stitchTasks ++ [(vid, j.id)] })
                  else if v == "failed" then
                    .ok (g2, setJobStatus st1 j.id "failed")
                  else
                    .ok (g2, setJobStatus st1 j.id "awaiting")
                else .ok (g2, st1)
          else .ok (g2, st1)
      | none => .ok (g2, st1)

/-! ## `retry_segment` (`app/routes/segments.py`, lines 305-338) -/

/-- `retry_segment`: only a `failed` segment owned by the caller goes back to
`pending`; the claim, completion and error fields are cleared (the output
artifact columns are not touched), and the job is re-queued as `pending`. -/
def retrySegment (uid : Nat) (sid : Nat) (st : DBState) :
    Except HError (Segment × DBState) :=
  match findSeg st sid with
  | none => .error ⟨404, "Segment not found"⟩
  | some g =>
      match findJob st g.jobId with
      | none => .error ⟨404, "Segment not found"⟩
      | some j =>
          if j.userId ≠ uid then .error ⟨404, "Segment not found"⟩
          else if g.status ≠ "failed" then
            .error ⟨400, "Only failed segments can be retried (current: " ++ g.status ++ ")"⟩
          else
            let g2 : Segment :=
              {g with status := "pending", workerId := none, workerName := none,
                      claimedAt := none, completedAt := none, errorMessage := none,
                      progressLog := none}
            let st1 : DBState :=
              {st with segments := st.segments.map (fun gg => if gg.id == sid then g2 else gg)}
            .ok (g2, setJobStatus st1 j.id "pending")

/-! ## `delete_segment` (`app/routes/segments.py`, lines 341-399) -/

/-- The re-index comparison: `order_by(Segment.index)`. -/
def segLeByIndex (a b : Segment) : Bool :=
  decide (a.index ≤ b.index)

/-- Ordered insertion for `sortByIndex`. -/
def insertByIndex (g : Segment) : List Segment → List Segment
  | [] => [g]
  | h :: t => if segLeByIndex g h then g :: h :: t else h :: insertByIndex g t

/-- `order_by(Segment.index)`: a sort of the job's rows by `index`
(insertion sort, so that the definition evaluates inside the kernel). -/
def sortByIndex : List Segment → List Segment
  | [] => []
  | h :: t => insertByIndex h (sortByIndex t)

/-- `delete_segment`: only `failed`/`completed` segments owned by the caller,
never the sole segment of its job; the remaining segments of the job are
re-indexed to `0..N-1` in index order, and a `failed` job with no failed
segment left reverts to `awaiting`. -/
def deleteSegment (uid : Nat) (sid : Nat) (st : DBState) : Except HError DBState :=
  match findSeg st sid with
  | none => .error ⟨404, "Segment not found"⟩
  | some g =>
      match findJob st g.jobId with
      | none => .error ⟨404, "Segment not found"⟩
      | some j =>
          if j.userId ≠ uid then .error ⟨404, "Segment not found"⟩
          else if ¬ (g.status = "failed" ∨ g.status = "completed") then
            .error ⟨400, "Only failed or completed segments can be deleted (current: " ++ g.status ++ ")"⟩
          else if (st.segments.filter (fun gg => gg.jobId == j.id)).length ≤ 1 then
            .error ⟨400, "Cannot delete the only segment in a job"⟩
          else
            let segs1 := st.segments.filter (fun gg => !(gg.id == sid))
            let remaining := segs1.filter (fun gg => gg.jobId == j.id)
            let reindexed := (sortByIndex remaining).enum.map
              (fun p => {p.2 with index := p.1})
            let segs2 := segs1.filter (fun gg => !(gg.jobId == j.id)) ++ reindexed
            let anyFailed := segs2.any (fun gg => gg.jobId == j.id && gg.status == "failed")
            let st2 : DBState := {st with segments := segs2}
            .ok (if j.status == "failed" && !anyFailed
                 then setJobStatus st2 j.id "awaiting" else st2)

/-! ## `reorder_jobs` (`app/routes/jobs.py`, lines 173-201) -/

/-- `reorder_jobs`: reject an empty list; fetch the distinct supplied ids that
match a job of the caller and reject unless their count equals the length of
the supplied list (which rules out duplicates and foreign or unknown ids);
then assign `priority = position` to each listed job. -/
def reorderJobs (uid : Nat) (ids : List Nat) (st : DBState) : Except HError DBState :=
  if ids.isEmpty then .error ⟨400, "job_ids must not be empty"⟩
  else
    let matched := ids.dedup.filter
      (fun i => st.jobs.any (fun j => j.id == i && j.userId == uid))
    if matched.length ≠ ids.length then
      .error ⟨400, "Some job IDs not found or not owned by you"⟩
    else
      let jobs2 := ids.enum.foldl
        (fun js p => js.map (fun j =>
          if j.id == p.2 && j.userId == uid then {j with priority := (p.1 : Int)} else j))
        st.jobs
      .ok {st with jobs := jobs2}

/-! ## `_resolve_wildcards` (`app/routes/segments.py`, lines 57-84) -/

/-- The character class `[^<>]` of the placeholder pattern. -/
def isTokChar (c : Char) : Bool :=
  !(c == '<') && !(c == '>')

/-- Attempt to match `([^<>]+)>` right after an opening `<`: returns the
token body and the rest of the input, or fails. -/
def takeTok (cs : List Char) : Option (String × List Char) :=
  if (cs.takeWhile isTokChar) ≠ [] ∧
      (cs.drop (cs.takeWhile isTokChar).length).head? = some '>' then
    some (String.mk (cs.takeWhile isTokChar), (cs.drop (cs.takeWhile isTokChar).length).tail)
  else none

/-- `re.findall(r"<([^<>]+)>", prompt)`: left-to-right scan collecting the
bracketed tokens, skipping one character on a failed match attempt.  The
`fuel` argument (instantiated with the input length, which bounds the number
of scan steps since every step consumes at least one character) makes the
recursion structural. -/
def findToksAux : Nat → List Char → List String
  | 0, _ => []
  | _ + 1, [] => []
  | fuel + 1, c :: rest =>
      if c == '<' then
        match takeTok rest with
        | some (tok, rest2) => tok :: findToksAux fuel rest2
        | none => findToksAux fuel rest
      else findToksAux fuel rest

/-- The token list of a prompt. -/
def findToks (s : String) : List String :=
  findToksAux s.data.length s.data

/-- Python `str.replace`: left-to-right, non-overlapping, the replacement is
not rescanned.  The `fuel` argument (instantiated with the input length,
which bounds the number of steps since every step consumes at least one
character) makes the recursion structural. -/
def replaceAllAux (pat rep : List Char) : Nat → List Char → List Char
  | 0, s => s
  | _ + 1, [] => []
  | fuel + 1, c :: rest =>
      if pat.isPrefixOf (c :: rest) ∧ pat ≠ [] then
        rep ++ replaceAllAux pat rep fuel ((c :: rest).drop pat.length)
      else
        c :: replaceAllAux pat rep fuel rest

/-- Python `str.replace` on `String`. -/
def replaceAll (s pat rep : String) : String :=
  String.mk (replaceAllAux pat.data rep.data s.data.length s.data)

/-- The literal placeholder text of a token name. -/
def tokenPat (n : String) : String :=
  "<" ++ n ++ ">"

/-- The `wildcards` table row. -/
structure Wildcard where
  name : String
  options : List String
deriving DecidableEq

/-- `select(Wildcard).where(Wildcard.name == n)` against the catalog. -/
def lookupWildcard (cat : List Wildcard) (n : String) : Option Wildcard :=
  cat.find? (fun w => w.name == n)

/-- `_resolve_wildcards`: find the bracketed tokens; with none, return the
prompt and no template; otherwise substitute each distinct token that has a
catalog entry with a non-empty option list (the random pick is the `choice`
parameter) and keep the original prompt as the template. -/
def resolveWildcards (cat : List Wildcard) (choice : String → List String → String)
    (prompt : String) : String × Option String :=
  let toks := findToks prompt
  if toks.isEmpty then (prompt, none)
  else
    let names := toks.eraseDups
    let resolved := names.foldl (fun acc n =>
      match lookupWildcard cat n with
      | some w =>
          if !w.options.isEmpty then replaceAll acc (tokenPat n) (choice n w.options) else acc
      | none => acc) prompt
    (resolved, some prompt)

/-! ## `_resolve_loras` (`app/routes/segments.py`, lines 25-54) -/

/-- The `loras` table row (`app/models.py`), restricted to the columns the
resolver reads. -/
structure Lora where
  id : String
  highFile : Option String
  highS3Uri : Option String
  lowFile : Option String
  lowS3Uri : Option String
  defaultHighWeight : Int
  defaultLowWeight : Int
deriving DecidableEq

/-- One element of the request's `loras` list: a non-dict legacy entry, or a
dict with an optional `lora_id` reference and optional weight overrides. -/
inductive LoraInput where
  | raw (s : String)
  | slot (loraId : Option String) (highWeight : Option Int) (lowWeight : Option Int)
deriving DecidableEq

/-- A fully resolved slot as built by the resolver. -/
structure ResolvedLora where
  loraId : String
  highFile : Option String
  highS3Uri : Option String
  highWeight : Int
  lowFile : Option String
  lowS3Uri : Option String
  lowWeight : Int
deriving DecidableEq

/-- One element of the resolver's output list. -/
inductive LoraOut where
  | passthrough (i : LoraInput)
  | resolved (r : ResolvedLora)
deriving DecidableEq

/-- One iteration of the `_resolve_loras` loop: non-dict entries and dicts
with no (or falsy) `lora_id` pass through; a referencing slot is looked up in
the catalog, 400 when absent, otherwise expanded with the catalog file
locations and the caller weights falling back to the catalog defaults. -/
def resolveLoraItem (cat : List Lora) (i : LoraInput) : Except HError LoraOut :=
  match i with
  | .raw s => .ok (.passthrough (.raw s))
  | .slot lid hw lw =>
      match lid with
      | some l =>
          if l = "" then .ok (.passthrough (.slot lid hw lw))
          else
            match cat.find? (fun lr => lr.id == l) with
            | none => .error ⟨400, "LoRA not found: " ++ l⟩
            | some lr =>
                .ok (.resolved ⟨l, lr.highFile, lr.highS3Uri, hw.getD lr.defaultHighWeight,
                                lr.lowFile, lr.lowS3Uri, lw.getD lr.defaultLowWeight⟩)
      | none => .ok (.passthrough (.slot lid hw lw))

/-- The `_resolve_loras` loop over the whole list, stopping at the first
failing item. -/
def resolveLorasList (cat : List Lora) : List LoraInput → Except HError (List LoraOut)
  | [] => .ok []
  | i :: rest =>
      match resolveLoraItem cat i with
      | .error e => .error e
      | .ok o =>
          match resolveLorasList cat rest with
          | .error e => .error e
          | .ok os => .ok (o :: os)

/-- `_resolve_loras`: `None` and the empty list are returned unchanged
(`if not loras_input`), otherwise the per-item loop runs. -/
def resolveLoras (cat : List Lora) : Option (List LoraInput) → Except HError (Option (List LoraOut))
  | none => .ok none
  | some [] => .ok (some [])
  | some (i :: rest) => (resolveLorasList cat (i :: rest)).map some

/-! ## Demo fixtures -/

/-- A segment row with the claim fields empty. -/
def mkSeg (id jobId index : Nat) (status : String) (createdAt : Int) : Segment :=
  ⟨id, jobId, index, status, none, none, none, none, createdAt, none, none, none, none, none, false⟩

/-- A job row with zeroed media parameters. -/
def mkJob (id userId : Nat) (status : String) (priority : Int) : Job :=
  ⟨id, userId, status, priority, none, 0, 0, 0, 0⟩

/-- Two pending segments of one pending job: concurrent-claim fixture. -/
def twoSegState : DBState :=
  { segments := [mkSeg 1 10 0 "pending" 5, mkSeg 2 10 1 "pending" 6],
    jobs := [mkJob 10 0 "pending" 0], videos := [], nextVideoId := 0, stitchTasks := [] }

/-- A segment claimed at time 50 by worker 3 with progress text: staleness fixture. -/
def staleSeg : Segment :=
  {mkSeg 1 10 0 "claimed" 5 with
     claimedAt := some 50, workerId := some 3, workerName := some "w3",
     progressLog := some "step 1"}

/-- The staleness fixture state around `staleSeg`. -/
def staleState : DBState :=
  { segments := [staleSeg],
    jobs := [mkJob 10 0 "processing" 0], videos := [], nextVideoId := 0, stitchTasks := [] }

/-- One pending auto-finalize segment of a processing job: finalize fixture. -/
def finalizeState : DBState :=
  { segments := [{mkSeg 1 10 0 "pending" 5 with autoFinalize := true}],
    jobs := [mkJob 10 0 "processing" 0], videos := [], nextVideoId := 42, stitchTasks := [] }

/-- User 0 owning jobs 10 and 11: reorder fixture. -/
def twoJobState : DBState :=
  { segments := [], jobs := [mkJob 10 0 "pending" 0, mkJob 11 0 "pending" 1],
    videos := [], nextVideoId := 0, stitchTasks := [] }

/-- A job with completed, failed and pending segments: deletion fixture. -/
def deleteState : DBState :=
  { segments := [mkSeg 1 10 0 "completed" 5, mkSeg 2 10 1 "failed" 6, mkSeg 4 10 2 "pending" 7],
    jobs := [mkJob 10 0 "failed" 0], videos := [], nextVideoId := 0, stitchTasks := [] }

/-- A failed segment carrying output artifacts and an error: retry fixture. -/
def retrySeg : Segment :=
  {mkSeg 1 10 0 "failed" 5 with
     outputPath := some "s3://jobs/out.mp4",
     lastFramePath := some "s3://jobs/last.png",
     errorMessage := some "boom", claimedAt := some 9, workerId := some 3}

/-- The retry fixture state around `retrySeg`. -/
def retryState : DBState :=
  { segments := [retrySeg],
    jobs := [mkJob 10 0 "failed" 0], videos := [], nextVideoId := 0, stitchTasks := [] }

/-- A single pending segment of a processing job: transition-check fixture. -/
def pendingSegState : DBState :=
  { segments := [mkSeg 1 10 0 "pending" 5],
    jobs := [mkJob 10 0 "processing" 0], videos := [], nextVideoId := 0, stitchTasks := [] }

/-- The finalize fixture's segment after the `completed` report at time 100. -/
def finalizedSeg : Segment :=
  {mkSeg 1 10 0 "completed" 5 with autoFinalize := true, completedAt := some 100}

/-- The finalize fixture's state after the `completed` report at time 100:
job finalized, one pending Video, one scheduled stitch task. -/
def finalizedState : DBState :=
  { segments := [finalizedSeg], jobs := [mkJob 10 0 "finalized" 0],
    videos := [⟨42, 10, "pending"⟩], nextVideoId := 43, stitchTasks := [(42, 10)] }

/-- A one-entry style-modifier catalog. -/
def demoLoraCat : List Lora :=
  [⟨"aaa", some "hf.safetensors", some "s3://loras/hf", some "lf.safetensors", some "s3://loras/lf", 10, 8⟩]

/-- A one-entry wildcard catalog. -/
def demoWildcardCat : List Wildcard :=
  [⟨"style", ["cinematic"]⟩]

/-- A deterministic stand-in for `random.choice`. -/
def headChoice (n : String) (opts : List String) : String :=
  opts.headD n

/-! ## Derived predicates used in the specifications -/

/-- `wc and wc.options`: the token has a catalog entry with at least one
option. -/
def isActiveName (cat : List Wildcard) (n : String) : Bool :=
  match lookupWildcard cat n with
  | some w => !w.options.isEmpty
  | none => false

/-- The token names the resolver acts on: distinct tokens whose catalog entry
exists and has at least one option. -/
def activeNames (cat : List Wildcard) (prompt : String) : List String :=
  (findToks prompt).eraseDups.filter (isActiveName cat)

/-- The per-item contract of the slot resolver: legacy and id-less entries
pass through unchanged; a referencing slot resolves against its catalog row,
with caller weights taking precedence over the catalog defaults. -/
def loraRel (cat : List Lora) : LoraInput → LoraOut → Prop
  | .raw s, o => o = .passthrough (.raw s)
  | .slot none hw lw, o => o = .passthrough (.slot none hw lw)
  | .slot (some l) hw lw, o =>
      (l = "" ∧ o = .passthrough (.slot (some l) hw lw))
      ∨ (∃ lr, cat.find? (fun x => x.id == l) = some lr
          ∧ o = .resolved ⟨l, lr.highFile, lr.highS3Uri, hw.getD lr.defaultHighWeight,
                           lr.lowFile, lr.lowS3Uri, lw.getD lr.defaultLowWeight⟩)

/-- A slot whose id reference has no catalog row. -/
def offendingLora (cat : List Lora) (i : LoraInput) : Prop :=
  ∃ l hw lw, i = .slot (some l) hw lw ∧ l ≠ "" ∧ cat.find? (fun x => x.id == l) = none

/-- Claims handed out so far: each as a `claimed` segment in the store whose
claim timestamp is no older than the window start. -/
def ClaimedInv (t0 : Int) (claimed : List Nat) (st : DBState) : Prop :=
  ∀ i ∈ claimed, ∃ g ∈ st.segments, g.id = i ∧ g.status = "claimed"
    ∧ ∃ tc, g.claimedAt = some tc ∧ t0 ≤ tc

/-- The exact-success condition of `reorder_jobs`: the supplied list is
duplicate-free and every id names a job of the caller. -/
def reorderOk (uid : Nat) (ids : List Nat) (st : DBState) : Prop :=
  ids.Nodup ∧ ∀ i ∈ ids, ∃ j ∈ st.jobs, j.id = i ∧ j.userId = uid

/-! ## Shared helper lemmas -/

theorem find?_map_replace {α : Type} (idOf : α → Nat) (k : Nat) (b : α) (l : List α) (a : α)
    (h : l.find? (fun x => idOf x == k) = some a) (hb : idOf b = k) :
    (l.map (fun x => if idOf x == k then b else x)).find? (fun x => idOf x == k) = some b := by
  induction l with
  | nil => simp at h
  | cons x xs ih =>
      cases hx : (idOf x == k) with
      | true =>
          simp only [List.map_cons]
          rw [if_pos hx, List.find?_cons, show (idOf b == k) = true by simp [hb]]
      | false =>
          rw [List.find?_cons, hx] at h
          simp only [List.map_cons]
          rw [if_neg (by simp [hx]), List.find?_cons, hx]
          exact ih h

theorem find?_map_update {α : Type} (idOf : α → Nat) (k : Nat) (f : α → α) (l : List α) (a : α)
    (h : l.find? (fun x => idOf x == k) = some a) (hf : ∀ x, idOf (f x) = idOf x) :
    (l.map (fun x => if idOf x == k then f x else x)).find? (fun x => idOf x == k) = some (f a) := by
  induction l with
  | nil => simp at h
  | cons x xs ih =>
      cases hx : (idOf x == k) with
      | true =>
          rw [List.find?_cons, hx] at h
          have hxa : x = a := by
            have h2 : some x = some a := h
            injection h2
          subst hxa
          simp only [List.map_cons]
          rw [if_pos hx, List.find?_cons, show (idOf (f x) == k) = true by rw [hf x]; exact hx]
      | false =>
          rw [List.find?_cons, hx] at h
          simp only [List.map_cons]
          rw [if_neg (by simp [hx]), List.find?_cons, hx]
          exact ih h

theorem applyBody_status {now : Int} {b : StatusUpdateBody} {g : Segment} {v : String}
    (hv : b.status = some v) : (applyBody now b g).status = v := by
  unfold applyBody
  rw [hv]
  cases b.outputPath <;> cases b.lastFramePath <;> cases b.errorMessage <;>
    cases b.progressLog <;> rfl

theorem applyBody_autoFinalize (now : Int) (b : StatusUpdateBody) (g : Segment) :
    (applyBody now b g).autoFinalize = g.autoFinalize := by
  unfold applyBody
  cases b.status <;> cases b.outputPath <;> cases b.lastFramePath <;>
    cases b.errorMessage <;> cases b.progressLog <;> rfl

/-! ## Selection-order lemmas (used by C1, C2, C3) -/

theorem keyLe_iff (a b : Segment × Job) :
    keyLe a b = true ↔
      (a.2.priority < b.2.priority
        ∨ (a.2.priority = b.2.priority ∧ a.1.createdAt ≤ b.1.createdAt)) := by
  simp [keyLe, Bool.or_eq_true, Bool.and_eq_true, decide_eq_true_eq, beq_iff_eq]

theorem keyLe_refl (a : Segment × Job) : keyLe a a = true := by
  rw [keyLe_iff]
  right
  exact ⟨rfl, le_refl _⟩

theorem keyLe_total (a b : Segment × Job) : keyLe a b = true ∨ keyLe b a = true := by
  rw [keyLe_iff, keyLe_iff]
  omega

theorem keyLe_trans {a b c : Segment × Job}
    (hab : keyLe a b = true) (hbc : keyLe b c = true) : keyLe a c = true := by
  rw [keyLe_iff] at *
  omega

theorem pickMin_mem : ∀ (l : List (Segment × Job)) (p : Segment × Job),
    pickMin p l = p ∨ pickMin p l ∈ l := by
  intro l
  induction l with
  | nil => intro p; left; rfl
  | cons q t ih =>
      intro p
      have hstep : pickMin p (q :: t) = pickMin (if keyLe p q then p else q) t := rfl
      rw [hstep]
      rcases ih (if keyLe p q then p else q) with h | h
      · rw [h]
        by_cases hk : keyLe p q = true
        · rw [if_pos hk]; left; rfl
        · rw [if_neg hk]; right; exact List.mem_cons_self q t
      · right; exact List.mem_cons_of_mem q h

theorem pickMin_le : ∀ (l : List (Segment × Job)) (p : Segment × Job),
    ∀ r ∈ p :: l, keyLe (pickMin p l) r = true := by
  intro l
  induction l with
  | nil =>
      intro p r hr
      rcases List.mem_cons.mp hr with he | hm
      · rw [he]; exact keyLe_refl p
      · exact absurd hm (List.not_mem_nil r)
  | cons q t ih =>
      intro p r hr
      have hstep : pickMin p (q :: t) = pickMin (if keyLe p q then p else q) t := rfl
      rw [hstep]
      have hacc : keyLe (if keyLe p q then p else q) p = true
          ∧ keyLe (if keyLe p q then p else q) q = true := by
        by_cases hk : keyLe p q = true
        · rw [if_pos hk]; exact ⟨keyLe_refl p, hk⟩
        · rw [if_neg hk]
          rcases keyLe_total p q with h1 | h1
          · exact absurd h1 hk
          · exact ⟨h1, keyLe_refl q⟩
      have hself := ih (if keyLe p q then p else q) _
        (List.mem_cons_self (if keyLe p q then p else q) t)
      rcases List.mem_cons.mp hr with he | hr2
      · rw [he]; exact keyLe_trans hself hacc.1
      · rcases List.mem_cons.mp hr2 with he2 | hr3
        · rw [he2]; exact keyLe_trans hself hacc.2
        · exact ih (if keyLe p q then p else q) r (List.mem_cons_of_mem _ hr3)

theorem selMin_mem {l : List (Segment × Job)} {x : Segment × Job}
    (h : selMin l = some x) : x ∈ l := by
  cases l with
  | nil => exact absurd h (by simp [selMin])
  | cons p t =>
      have hx : x = pickMin p t := by
        simp only [selMin] at h
        injection h with h2
        exact h2.symm
      rw [hx]
      rcases pickMin_mem t p with h1 | h1
      · rw [h1]; exact List.mem_cons_self p t
      · exact List.mem_cons_of_mem p h1

theorem selMin_le {l : List (Segment × Job)} {x : Segment × Job}
    (h : selMin l = some x) : ∀ r ∈ l, keyLe x r = true := by
  cases l with
  | nil => intro r hr; exact absurd hr (List.not_mem_nil r)
  | cons p t =>
      have hx : x = pickMin p t := by
        simp only [selMin] at h
        injection h with h2
        exact h2.symm
      rw [hx]
      exact pickMin_le t p

theorem mem_eligPairs {st : DBState} {g : Segment} {j : Job} :
    (g, j) ∈ eligPairs st ↔
      g ∈ st.segments ∧ findJob st g.jobId = some j ∧ g.status = "pending"
        ∧ (j.status = "pending" ∨ j.status = "processing") := by
  simp only [eligPairs, List.mem_filterMap]
  constructor
  · rintro ⟨a, ha, hep⟩
    unfold eligPair at hep
    cases hfj : findJob st a.jobId with
    | none =>
        simp only [hfj] at hep
        exact absurd hep (by simp)
    | some j0 =>
        simp only [hfj] at hep
        by_cases hc : (a.status == "pending"
            && (j0.status == "pending" || j0.status == "processing")) = true
        · rw [if_pos hc] at hep
          have hag : a = g ∧ j0 = j := by
            injection hep with h2
            exact ⟨congrArg Prod.fst h2, congrArg Prod.snd h2⟩
          obtain ⟨rfl, rfl⟩ := hag
          obtain ⟨h1, h2⟩ := (Bool.and_eq_true _ _).mp hc
          refine ⟨ha, hfj, by simpa using h1, ?_⟩
          rcases (Bool.or_eq_true _ _).mp h2 with h3 | h3
          · left; simpa using h3
          · right; simpa using h3
        · rw [if_neg hc] at hep
          exact absurd hep (by simp)
  · rintro ⟨hmem, hfj, hgs, hjs⟩
    refine ⟨g, hmem, ?_⟩
    unfold eligPair
    simp only [hfj]
    rw [if_pos (by rcases hjs with h | h <;> simp [hgs, h])]

/-- The sweep does not touch the `jobs` table. -/
theorem findJob_sweep (now : Int) (st : DBState) (jid : Nat) :
    findJob (sweep now st) jid = findJob st jid := rfl

/-! ## C2 — selection order and the empty result -/

/-- C2: after the inline stale sweep, if no segment is `pending` with its job
`pending`/`processing`, `claim_next_segment` returns the empty "no work"
result (its result type carries no error); otherwise it returns a view of an
eligible segment that is minimal under (job priority ascending, segment
creation time ascending) among all eligible segments. -/
theorem claim_next_selection (st : DBState) (now : Int) (wid : Nat) (wn : Option String) :
    (eligPairs (sweep now st) = [] → (claimNext now wid wn st).1 = none)
    ∧ (eligPairs (sweep now st) ≠ [] →
        ∃ v g j, (claimNext now wid wn st).1 = some v
          ∧ v.id = g.id ∧ v.jobId = g.jobId
          ∧ g ∈ (sweep now st).segments ∧ findJob (sweep now st) g.jobId = some j
          ∧ g.status = "pending" ∧ (j.status = "pending" ∨ j.status = "processing")
          ∧ (∀ g2 j2, (g2, j2) ∈ eligPairs (sweep now st) →
              (j.priority < j2.priority
                ∨ (j.priority = j2.priority ∧ g.createdAt ≤ g2.createdAt)))) := by
  constructor
  · intro h
    simp only [claimNext, claimStage2, h]
    rfl
  · intro hne
    cases hsel : selMin (eligPairs (sweep now st)) with
    | none =>
        exfalso
        cases he : eligPairs (sweep now st) with
        | nil => exact hne he
        | cons p t => rw [he] at hsel; exact absurd hsel (by simp [selMin])
    | some x =>
        obtain ⟨g0, j0⟩ := x
        have hmem := selMin_mem hsel
        have hle := selMin_le hsel
        obtain ⟨hm, hfj, hgs, hjs⟩ := mem_eligPairs.mp hmem
        have heq : (claimNext now wid wn st).1 = some ⟨g0.id, g0.jobId, g0.index,
            resolveStartImage (sweep now st) g0 j0, j0.startingImage, j0.width, j0.height,
            j0.fps, j0.seed⟩ := by
          simp only [claimNext, claimStage2, hsel]
        refine ⟨_, g0, j0, heq, rfl, rfl, hm, hfj, hgs, hjs, ?_⟩
        intro g2 j2 h2
        have := hle (g2, j2) h2
        rw [keyLe_iff] at this
        exact this

/-- C2 witness: on the two-segment fixture at time 100 the oldest segment of
the top-priority job is claimed; on the stale fixture at time 60 (claim still
fresh, nothing pending) the call returns the empty result. -/
theorem claim_next_selection_witness :
    (eligPairs (sweep 60 staleState) = [] → (claimNext 60 7 none staleState).1 = none)
    ∧ (eligPairs (sweep 100 twoSegState) ≠ [] →
        ∃ v g j, (claimNext 100 7 none twoSegState).1 = some v
          ∧ v.id = g.id ∧ v.jobId = g.jobId
          ∧ g ∈ (sweep 100 twoSegState).segments
          ∧ findJob (sweep 100 twoSegState) g.jobId = some j
          ∧ g.status = "pending" ∧ (j.status = "pending" ∨ j.status = "processing")
          ∧ (∀ g2 j2, (g2, j2) ∈ eligPairs (sweep 100 twoSegState) →
              (j.priority < j2.priority
                ∨ (j.priority = j2.priority ∧ g.createdAt ≤ g2.createdAt)))) :=
  ⟨(claim_next_selection staleState 60 7 none).1,
   (claim_next_selection twoSegState 100 7 none).2⟩

/-! ## C3 — the stale-reclamation sweep -/

/-- C3: every `claim_next_segment` call first resets each segment that is
`claimed`/`processing` with a claim timestamp older than 30 minutes: in the
swept state the segment is `pending` again with worker identity, worker name,
claim timestamp and progress text cleared, and — whenever its job is
`pending`/`processing` — it is one of the call's own selection candidates;
it survives into the call's final state whenever this very call does not
claim it, making it claimable by subsequent calls. -/
theorem claim_next_stale_sweep (st : DBState) (now : Int) (wid : Nat) (wn : Option String)
    (g : Segment) (tc : Int)
    (hmem : g ∈ st.segments)
    (hstat : g.status = "claimed" ∨ g.status = "processing")
    (htc : g.claimedAt = some tc) (hold : tc < now - 30) :
    (sweepSeg now g).status = "pending"
    ∧ (sweepSeg now g).workerId = none
    ∧ (sweepSeg now g).workerName = none
    ∧ (sweepSeg now g).claimedAt = none
    ∧ (sweepSeg now g).progressLog = none
    ∧ (sweepSeg now g).id = g.id
    ∧ sweepSeg now g ∈ (sweep now st).segments
    ∧ (∀ j, findJob st g.jobId = some j → (j.status = "pending" ∨ j.status = "processing") →
        (sweepSeg now g, j) ∈ eligPairs (sweep now st))
    ∧ (∀ st2, claimNext now wid wn st = (none, st2) → sweepSeg now g ∈ st2.segments)
    ∧ (∀ v st2, claimNext now wid wn st = (some v, st2) → v.id ≠ g.id →
        sweepSeg now g ∈ st2.segments) := by
  have hstale : isStale now g = true := by
    simp only [isStale, htc, Bool.and_eq_true, Bool.or_eq_true]
    constructor
    · rcases hstat with h | h <;> simp [h]
    · simpa using hold
  have hreset : sweepSeg now g = resetSeg g := by
    unfold sweepSeg
    rw [if_pos hstale]
  refine ⟨by rw [hreset]; rfl, by rw [hreset]; rfl, by rw [hreset]; rfl,
    by rw [hreset]; rfl, by rw [hreset]; rfl, by rw [hreset]; rfl,
    List.mem_map_of_mem (sweepSeg now) hmem, ?_, ?_, ?_⟩
  · intro j hfj hjs
    apply mem_eligPairs.mpr
    refine ⟨List.mem_map_of_mem (sweepSeg now) hmem, ?_, by rw [hreset]; rfl, hjs⟩
    have hjid : (sweepSeg now g).jobId = g.jobId := by rw [hreset]; rfl
    rw [hjid, findJob_sweep]
    exact hfj
  · intro st2 h2
    cases hsel : selMin (eligPairs (sweep now st)) with
    | none =>
        have hst2 : st2 = sweep now st := by
          simp only [claimNext, claimStage2, hsel] at h2
          exact (congrArg Prod.snd h2).symm
        rw [hst2]
        exact List.mem_map_of_mem (sweepSeg now) hmem
    | some x =>
        exfalso
        obtain ⟨g0, j0⟩ := x
        simp only [claimNext, claimStage2, hsel] at h2
        have := congrArg Prod.fst h2
        exact absurd this (by simp)
  · intro v st2 h2 hvne
    cases hsel : selMin (eligPairs (sweep now st)) with
    | none =>
        exfalso
        simp only [claimNext, claimStage2, hsel] at h2
        have := congrArg Prod.fst h2
        exact absurd this (by simp)
    | some x =>
        obtain ⟨g0, j0⟩ := x
        simp only [claimNext, claimStage2, hsel] at h2
        have hv : v.id = g0.id := by
          have h3 := congrArg Prod.fst h2
          simp only at h3
          injection h3 with h4
          rw [← h4]
        have hseg : st2.segments = (sweep now st).segments.map
            (fun gg => if gg.id == g0.id then claimedSeg now wid wn g0 else gg) := by
          have h3 := congrArg Prod.snd h2
          simp only at h3
          rw [← h3]
        rw [hseg]
        have hid2 : ((sweepSeg now g).id == g0.id) = false := by
          have : (sweepSeg now g).id = g.id := by rw [hreset]; rfl
          rw [this]
          simp only [beq_eq_false_iff_ne, ne_eq]
          intro he
          exact hvne (by rw [hv, he])
        have hfix : (fun gg => if gg.id == g0.id then claimedSeg now wid wn g0 else gg)
            (sweepSeg now g) = sweepSeg now g := by
          simp only [hid2, Bool.false_eq_true, if_false]
        rw [← hfix]
        exact List.mem_map_of_mem _ (List.mem_map_of_mem (sweepSeg now) hmem)

/-- C3 witness: the stale fixture (claimed at 50) swept at time 100. -/
theorem claim_next_stale_sweep_witness :
    ((sweepSeg 100 staleSeg).status = "pending"
    ∧ (sweepSeg 100 staleSeg).workerId = none
    ∧ (sweepSeg 100 staleSeg).workerName = none
    ∧ (sweepSeg 100 staleSeg).claimedAt = none
    ∧ (sweepSeg 100 staleSeg).progressLog = none
    ∧ (sweepSeg 100 staleSeg).id = staleSeg.id
    ∧ sweepSeg 100 staleSeg ∈ (sweep 100 staleState).segments
    ∧ (∀ j, findJob staleState staleSeg.jobId = some j →
        (j.status = "pending" ∨ j.status = "processing") →
        (sweepSeg 100 staleSeg, j) ∈ eligPairs (sweep 100 staleState))
    ∧ (∀ st2, claimNext 100 7 none staleState = (none, st2) →
        sweepSeg 100 staleSeg ∈ st2.segments)
    ∧ (∀ v st2, claimNext 100 7 none staleState = (some v, st2) →
        v.id ≠ staleSeg.id →
        sweepSeg 100 staleSeg ∈ st2.segments)) :=
  claim_next_stale_sweep staleState 100 7 none staleSeg 50
    (by decide) (by decide) (by decide) (by decide)

/-! ## C6 — deletion guards and re-indexing -/

theorem insertByIndex_perm (g : Segment) (l : List Segment) :
    (insertByIndex g l).Perm (g :: l) := by
  induction l with
  | nil => exact List.Perm.refl _
  | cons h t ih =>
      simp only [insertByIndex]
      split
      · exact List.Perm.refl _
      · exact (ih.cons h).trans (List.Perm.swap g h t)

theorem sortByIndex_perm (l : List Segment) : (sortByIndex l).Perm l := by
  induction l with
  | nil => exact List.Perm.refl _
  | cons h t ih =>
      simp only [sortByIndex]
      exact (insertByIndex_perm h (sortByIndex t)).trans (ih.cons h)

theorem insertByIndex_sorted (g : Segment) (l : List Segment)
    (hl : List.Pairwise (fun a b => a.index ≤ b.index) l) :
    List.Pairwise (fun a b => a.index ≤ b.index) (insertByIndex g l) := by
  induction l with
  | nil => exact List.Pairwise.cons (fun b hb => absurd hb (List.not_mem_nil b)) List.Pairwise.nil
  | cons h t ih =>
      simp only [insertByIndex]
      split
      · rename_i hle
        have hgh : g.index ≤ h.index := by
          simpa [segLeByIndex] using hle
        refine List.Pairwise.cons ?_ hl
        intro b hb
        rcases List.mem_cons.mp hb with he | hm
        · rw [he]; exact hgh
        · exact le_trans hgh ((List.pairwise_cons.mp hl).1 b hm)
      · rename_i hgt
        have hhg : h.index ≤ g.index := by
          have := Nat.le_total g.index h.index
          rcases this with h1 | h1
          · exact absurd (by simpa [segLeByIndex] using h1) hgt
          · exact h1
        obtain ⟨hhead, htail⟩ := List.pairwise_cons.mp hl
        refine List.Pairwise.cons ?_ (ih htail)
        intro b hb
        have hb2 : b ∈ g :: t := (insertByIndex_perm g t).mem_iff.mp hb
        rcases List.mem_cons.mp hb2 with he | hm
        · rw [he]; exact hhg
        · exact hhead b hm

theorem sortByIndex_sorted (l : List Segment) :
    List.Pairwise (fun a b => a.index ≤ b.index) (sortByIndex l) := by
  induction l with
  | nil => exact List.Pairwise.nil
  | cons h t ih => exact insertByIndex_sorted h (sortByIndex t) ih

/-- C6 counterexample: segment 4 of the deletion fixture is `pending` and is
not the sole segment of its job (the job has three segments), yet
`delete_segment` rejects it with a 400 error — refuting the claim that
deletion succeeds on `pending` segments. -/
theorem delete_segment_rejects_pending :
    deleteSegment 0 4 deleteState =
      .error ⟨400, "Only failed or completed segments can be deleted (current: pending)"⟩
    ∧ 2 ≤ (deleteState.segments.filter (fun gg => gg.jobId == 10)).length := by
  exact ⟨rfl, by decide⟩

theorem deleteSegment_ok_segments
    (uid sid : Nat) (st : DBState) (g : Segment) (j : Job)
    (hg : findSeg st sid = some g) (hj : findJob st g.jobId = some j) (hu : j.userId = uid)
    (hstat : g.status = "failed" ∨ g.status = "completed")
    (hcount : ¬ (st.segments.filter (fun gg => gg.jobId == j.id)).length ≤ 1) :
    ∃ st2, deleteSegment uid sid st = .ok st2
      ∧ st2.segments =
          ((st.segments.filter (fun gg => !(gg.id == sid))).filter
              (fun gg => !(gg.jobId == j.id)))
          ++ ((sortByIndex ((st.segments.filter (fun gg => !(gg.id == sid))).filter
                (fun gg => gg.jobId == j.id))).enum.map (fun p => {p.2 with index := p.1})) := by
  simp only [deleteSegment, hg, hj]
  rw [if_neg (not_not_intro hu), if_neg (not_not_intro hstat), if_neg hcount]
  split
  · exact ⟨_, rfl, rfl⟩
  · exact ⟨_, rfl, rfl⟩

/-- C6 amended: `delete_segment` succeeds only on `completed` or `failed`
segments — a `pending` segment is rejected with a 400 error — and never on
the sole remaining segment of its job; after every successful deletion the
remaining segments of the job carry indices exactly `0..count-1` with their
original relative (index) order preserved. -/
theorem delete_segment_spec
    (uid sid : Nat) (st : DBState) (g : Segment) (j : Job)
    (hg : findSeg st sid = some g) (hj : findJob st g.jobId = some j) (hu : j.userId = uid)
    (hnd : (st.segments.map Segment.id).Nodup) :
    (¬ (g.status = "failed" ∨ g.status = "completed") →
        deleteSegment uid sid st =
          .error ⟨400, "Only failed or completed segments can be deleted (current: "
            ++ g.status ++ ")"⟩)
    ∧ ((st.segments.filter (fun gg => gg.jobId == j.id)).length ≤ 1 →
        ∃ e, deleteSegment uid sid st = .error e ∧ e.code = 400)
    ∧ (∀ st2, deleteSegment uid sid st = .ok st2 →
        ((g.status = "failed" ∨ g.status = "completed")
        ∧ 2 ≤ (st.segments.filter (fun gg => gg.jobId == j.id)).length
        ∧ ((st2.segments.filter (fun gg => gg.jobId == j.id)).map Segment.index)
            = List.range ((st2.segments.filter (fun gg => gg.jobId == j.id)).length)
        ∧ ((st2.segments.filter (fun gg => gg.jobId == j.id)).map Segment.id).Perm
            ((st.segments.filter (fun gg => gg.jobId == j.id && !(gg.id == sid))).map Segment.id)
        ∧ (∀ a ∈ st2.segments.filter (fun gg => gg.jobId == j.id),
           ∀ b ∈ st2.segments.filter (fun gg => gg.jobId == j.id),
           ∀ a0 ∈ st.segments, ∀ b0 ∈ st.segments,
             a0.id = a.id → b0.id = b.id → a0.index < b0.index → a.index < b.index))) := by
  refine ⟨?_, ?_, ?_⟩
  · intro hbad
    simp only [deleteSegment, hg, hj]
    rw [if_neg (not_not_intro hu), if_pos hbad]
  · intro hle
    by_cases hbad : ¬ (g.status = "failed" ∨ g.status = "completed")
    · simp only [deleteSegment, hg, hj]
      rw [if_neg (not_not_intro hu), if_pos hbad]
      exact ⟨_, rfl, rfl⟩
    · simp only [deleteSegment, hg, hj]
      rw [if_neg (not_not_intro hu), if_neg hbad, if_pos hle]
      exact ⟨_, rfl, rfl⟩
  · intro st2 hok
    by_cases hbad : ¬ (g.status = "failed" ∨ g.status = "completed")
    · exfalso
      simp only [deleteSegment, hg, hj] at hok
      rw [if_neg (not_not_intro hu), if_pos hbad] at hok
      exact absurd hok (by simp)
    · have hstat := not_not.mp hbad
      by_cases hle : (st.segments.filter (fun gg => gg.jobId == j.id)).length ≤ 1
      · exfalso
        simp only [deleteSegment, hg, hj] at hok
        rw [if_neg (not_not_intro hu), if_neg hbad, if_pos hle] at hok
        exact absurd hok (by simp)
      · obtain ⟨st2', hok', hsegs⟩ :=
          deleteSegment_ok_segments uid sid st g j hg hj hu hstat hle
        have hst2 : st2' = st2 := by
          rw [hok'] at hok
          injection hok
        rw [hst2] at hsegs
        have hfilter : st2.segments.filter (fun gg => gg.jobId == j.id) =
            (sortByIndex ((st.segments.filter (fun gg => !(gg.id == sid))).filter
              (fun gg => gg.jobId == j.id))).enum.map (fun p => {p.2 with index := p.1}) := by
          rw [hsegs, List.filter_append]
          rw [List.filter_filter]
          rw [List.filter_eq_nil.mpr (by
            intro a _
            cases h : (a.jobId == j.id) <;> simp [h])]
          rw [List.nil_append]
          apply List.filter_eq_self.mpr
          intro x hx
          obtain ⟨p, hp, hxe⟩ := List.mem_map.mp hx
          have hp2 : p.2 ∈ sortByIndex ((st.segments.filter (fun gg => !(gg.id == sid))).filter
              (fun gg => gg.jobId == j.id)) :=
            List.getElem?_mem (List.mem_enum_iff_getElem?.mp hp)
          have hp3 := (sortByIndex_perm _).mem_iff.mp hp2
          have hp4 := List.of_mem_filter hp3
          rw [← hxe]
          exact hp4
        refine ⟨hstat, by omega, ?_, ?_, ?_⟩
        · rw [hfilter, List.map_map]
          have hm : ((sortByIndex ((st.segments.filter (fun gg => !(gg.id == sid))).filter
                (fun gg => gg.jobId == j.id))).enum.map
                (Segment.index ∘ fun p => {p.2 with index := p.1}))
              = (sortByIndex ((st.segments.filter (fun gg => !(gg.id == sid))).filter
                (fun gg => gg.jobId == j.id))).enum.map Prod.fst := by
            apply List.map_congr_left
            intro p _
            rfl
          rw [hm, List.enum_map_fst]
          congr 1
          simp [List.enum_length]
        · rw [hfilter, List.map_map]
          have hm : ((sortByIndex ((st.segments.filter (fun gg => !(gg.id == sid))).filter
                (fun gg => gg.jobId == j.id))).enum.map
                (Segment.id ∘ fun p => {p.2 with index := p.1}))
              = ((sortByIndex ((st.segments.filter (fun gg => !(gg.id == sid))).filter
                (fun gg => gg.jobId == j.id))).enum.map Prod.snd).map Segment.id := by
            rw [List.map_map]
            apply List.map_congr_left
            intro p _
            rfl
          rw [hm, List.enum_map_snd]
          have hperm := (sortByIndex_perm ((st.segments.filter (fun gg => !(gg.id == sid))).filter
              (fun gg => gg.jobId == j.id))).map Segment.id
          refine hperm.trans ?_
          rw [List.filter_filter]
        · intro a ha b hb a0 ha0 b0 hb0 hida hidb hlt
          rw [hfilter] at ha hb
          obtain ⟨p, hp, hpa⟩ := List.mem_map.mp ha
          obtain ⟨q, hq, hqb⟩ := List.mem_map.mp hb
          obtain ⟨hp1, hpe⟩ := List.getElem?_eq_some.mp (List.mem_enum_iff_getElem?.mp hp)
          obtain ⟨hq1, hqe⟩ := List.getElem?_eq_some.mp (List.mem_enum_iff_getElem?.mp hq)
          have hpmem : p.2 ∈ st.segments := by
            have h1 : p.2 ∈ sortByIndex _ := List.getElem?_mem (List.mem_enum_iff_getElem?.mp hp)
            have h2 := (sortByIndex_perm _).mem_iff.mp h1
            exact List.mem_of_mem_filter (List.mem_of_mem_filter h2)
          have hqmem : q.2 ∈ st.segments := by
            have h1 : q.2 ∈ sortByIndex _ := List.getElem?_mem (List.mem_enum_iff_getElem?.mp hq)
            have h2 := (sortByIndex_perm _).mem_iff.mp h1
            exact List.mem_of_mem_filter (List.mem_of_mem_filter h2)
          have hap : a0 = p.2 := by
            apply List.inj_on_of_nodup_map hnd ha0 hpmem
            rw [hida, ← hpa]
          have hbq : b0 = q.2 := by
            apply List.inj_on_of_nodup_map hnd hb0 hqmem
            rw [hidb, ← hqb]
          have haidx : a.index = p.1 := by rw [← hpa]
          have hbidx : b.index = q.1 := by rw [← hqb]
          rw [haidx, hbidx]
          by_contra hge
          have hqp : q.1 ≤ p.1 := Nat.le_of_not_lt hge
          rcases Nat.lt_or_ge q.1 p.1 with hlt2 | hge2
          · have hsort := sortByIndex_sorted ((st.segments.filter
                (fun gg => !(gg.id == sid))).filter (fun gg => gg.jobId == j.id))
            have := List.pairwise_iff_get.mp hsort ⟨q.1, hq1⟩ ⟨p.1, hp1⟩ hlt2
            simp only [List.get_eq_getElem, hpe, hqe] at this
            rw [hap, hbq] at hlt
            omega
          · have hpq : p.1 = q.1 := by omega
            have : p.2 = q.2 := by
              rw [← hpe, ← hqe]
              congr 1
            rw [hap, hbq, this] at hlt
            omega

/-- C6 witness: the amended theorem applied to the deletion fixture at its
failed segment (id 2); the first conjunct shows the call indeed succeeds
there. -/
theorem delete_segment_spec_witness :
    ((deleteSegment 0 2 deleteState).isOk = true)
    ∧ (∀ st2, deleteSegment 0 2 deleteState = .ok st2 →
        (((mkSeg 2 10 1 "failed" 6).status = "failed"
            ∨ (mkSeg 2 10 1 "failed" 6).status = "completed")
        ∧ 2 ≤ (deleteState.segments.filter (fun gg => gg.jobId == (mkJob 10 0 "failed" 0).id)).length
        ∧ ((st2.segments.filter (fun gg => gg.jobId == (mkJob 10 0 "failed" 0).id)).map Segment.index)
            = List.range ((st2.segments.filter
                (fun gg => gg.jobId == (mkJob 10 0 "failed" 0).id)).length)
        ∧ ((st2.segments.filter (fun gg => gg.jobId == (mkJob 10 0 "failed" 0).id)).map Segment.id).Perm
            ((deleteState.segments.filter
                (fun gg => gg.jobId == (mkJob 10 0 "failed" 0).id && !(gg.id == 2))).map Segment.id)
        ∧ (∀ a ∈ st2.segments.filter (fun gg => gg.jobId == (mkJob 10 0 "failed" 0).id),
           ∀ b ∈ st2.segments.filter (fun gg => gg.jobId == (mkJob 10 0 "failed" 0).id),
           ∀ a0 ∈ deleteState.segments, ∀ b0 ∈ deleteState.segments,
             a0.id = a.id → b0.id = b.id → a0.index < b0.index → a.index < b.index))) :=
  ⟨by decide,
   (delete_segment_spec 0 2 deleteState (mkSeg 2 10 1 "failed" 6) (mkJob 10 0 "failed" 0)
     (by decide) (by decide) rfl (by decide)).2.2⟩

/-! ## C8 — wildcard placeholder resolution -/

theorem foldl_skip_filter {α β : Type} (p : α → Bool) (f : β → α → β)
    (hid : ∀ b x, p x = false → f b x = b) :
    ∀ (l : List α) (b : β), l.foldl f b = (l.filter p).foldl f b := by
  intro l
  induction l with
  | nil => intro b; rfl
  | cons x xs ih =>
      intro b
      simp only [List.foldl_cons, List.filter_cons]
      cases hx : p x with
      | true =>
          rw [if_pos rfl]
          simp only [List.foldl_cons]
          exact ih (f b x)
      | false =>
          rw [if_neg (by simp)]
          rw [hid b x hx]
          exact ih b

theorem isActiveName_none {cat : List Wildcard} {n : String}
    (hw : lookupWildcard cat n = none) : isActiveName cat n = false := by
  simp [isActiveName, hw]

theorem isActiveName_some {cat : List Wildcard} {n : String} {w : Wildcard}
    (hw : lookupWildcard cat n = some w) : isActiveName cat n = !w.options.isEmpty := by
  simp [isActiveName, hw]

/-- C8: `_resolve_wildcards` returns the prompt untouched with no template
when the prompt has no bracketed token; stores the original prompt as the
template as soon as at least one token was found (whether or not it
resolves); and the resolved text is exactly the original prompt with, for
each distinct token having a catalog entry with at least one option, every
occurrence of that token replaced (Python `str.replace`) by the chosen
option — tokens with no matching list or no options contribute nothing; each
substituted value is one of the token's catalog options. -/
theorem resolve_wildcards_spec (cat : List Wildcard)
    (choice : String → List String → String) (prompt : String)
    (hchoice : ∀ n opts, opts ≠ [] → choice n opts ∈ opts) :
    (findToks prompt = [] → resolveWildcards cat choice prompt = (prompt, none))
    ∧ (findToks prompt ≠ [] → (resolveWildcards cat choice prompt).2 = some prompt)
    ∧ ((resolveWildcards cat choice prompt).1 =
        (activeNames cat prompt).foldl
          (fun acc n => replaceAll acc (tokenPat n)
            (choice n ((lookupWildcard cat n).elim [] Wildcard.options))) prompt)
    ∧ (∀ n ∈ activeNames cat prompt,
        choice n ((lookupWildcard cat n).elim [] Wildcard.options)
          ∈ (lookupWildcard cat n).elim [] Wildcard.options) := by
  have hid : ∀ (acc : String) (n : String), isActiveName cat n = false →
      (match lookupWildcard cat n with
       | some w =>
           if !w.options.isEmpty then replaceAll acc (tokenPat n) (choice n w.options) else acc
       | none => acc) = acc := by
    intro acc n hn
    rcases hw : lookupWildcard cat n with _ | w
    · simp [hw]
    · have h2 : (!w.options.isEmpty) = false := by
        rw [isActiveName_some hw] at hn
        exact hn
      simp [hw, h2]
  refine ⟨?_, ?_, ?_, ?_⟩
  · intro h
    simp [resolveWildcards, h]
  · intro h
    simp only [resolveWildcards]
    rw [if_neg (by simpa using h)]
  · by_cases h : findToks prompt = []
    · have he : ([] : List String).eraseDups = [] := rfl
      simp [resolveWildcards, activeNames, h, he]
    · simp only [resolveWildcards, activeNames]
      rw [if_neg (by simpa using h)]
      rw [foldl_skip_filter (isActiveName cat) _ hid ((findToks prompt).eraseDups) prompt]
      apply List.foldl_ext
      intro acc n hn
      have hp : isActiveName cat n = true := List.of_mem_filter hn
      rcases hw : lookupWildcard cat n with _ | w
      · rw [isActiveName_none hw] at hp
        exact absurd hp (by simp)
      · have h2 : (!w.options.isEmpty) = true := by
          rw [isActiveName_some hw] at hp
          exact hp
        simp [hw, h2]
  · intro n hn
    have hp : isActiveName cat n = true := List.of_mem_filter hn
    rcases hw : lookupWildcard cat n with _ | w
    · rw [isActiveName_none hw] at hp
      exact absurd hp (by simp)
    · have h2 : (!w.options.isEmpty) = true := by
        rw [isActiveName_some hw] at hp
        exact hp
      simp only [hw, Option.elim]
      apply hchoice
      intro he
      rw [he] at h2
      exact absurd h2 (by simp)

/-- C8 witness: the amended theorem applied to the spec's own examples —
`"a <style> portrait"` over a catalog mapping `style` to the single option
`"cinematic"`, and the placeholder-free `"a sunset"`. -/
theorem resolve_wildcards_spec_witness :
    (findToks "a sunset" = [] →
      resolveWildcards demoWildcardCat headChoice "a sunset" = ("a sunset", none))
    ∧ (findToks "a <style> portrait" ≠ [] →
        (resolveWildcards demoWildcardCat headChoice "a <style> portrait").2 =
          some "a <style> portrait")
    ∧ resolveWildcards demoWildcardCat headChoice "a <style> portrait" =
        ("a cinematic portrait", some "a <style> portrait") := by
  have hchoice : ∀ (n : String) (opts : List String), opts ≠ [] → headChoice n opts ∈ opts := by
    intro n opts h
    cases opts with
    | nil => exact absurd rfl h
    | cons a l => exact List.mem_cons_self a l
  refine ⟨?_, ?_, by decide⟩
  · exact (resolve_wildcards_spec demoWildcardCat headChoice "a sunset" hchoice).1
  · exact (resolve_wildcards_spec demoWildcardCat headChoice "a <style> portrait" hchoice).2.1

/-! ## C9 — modifier-slot resolution and its error kind -/

theorem resolveLoraItem_rel {cat : List Lora} {i : LoraInput} {o : LoraOut}
    (h : resolveLoraItem cat i = .ok o) : loraRel cat i o := by
  cases i with
  | raw s =>
      simp only [resolveLoraItem] at h
      injection h with h2
      exact h2.symm
  | slot lid hw lw =>
      cases lid with
      | none =>
          simp only [resolveLoraItem] at h
          injection h with h2
          exact h2.symm
      | some l =>
          simp only [resolveLoraItem] at h
          by_cases hl : l = ""
          · rw [if_pos hl] at h
            injection h with h2
            exact Or.inl ⟨hl, h2.symm⟩
          · rw [if_neg hl] at h
            cases hf : cat.find? (fun x => x.id == l) with
            | none => rw [hf] at h; exact absurd h (by simp)
            | some lr =>
                rw [hf] at h
                injection h with h2
                exact Or.inr ⟨lr, hf, h2.symm⟩

theorem resolveLoraItem_ok_of_not_offending {cat : List Lora} {i : LoraInput}
    (h : ¬ offendingLora cat i) : ∃ o, resolveLoraItem cat i = .ok o := by
  cases i with
  | raw s => exact ⟨_, rfl⟩
  | slot lid hw lw =>
      cases lid with
      | none => exact ⟨_, rfl⟩
      | some l =>
          simp only [resolveLoraItem]
          by_cases hl : l = ""
          · rw [if_pos hl]; exact ⟨_, rfl⟩
          · rw [if_neg hl]
            cases hf : cat.find? (fun x => x.id == l) with
            | none => exact absurd ⟨l, hw, lw, rfl, hl, hf⟩ h
            | some lr => exact ⟨_, rfl⟩

/-- C9 counterexample: an id with no catalog entry fails with HTTP status 400
(the code's ValidationError shape), not with the 404 status this module uses
for the NotFound kind (absent job or segment), refuting the claimed NotFound
error kind. -/
theorem resolve_loras_unknown_id_gives_400 :
    resolveLoras demoLoraCat (some [.slot (some "bbb") none none]) =
      .error ⟨400, "LoRA not found: bbb"⟩
    ∧ (400 : Nat) ≠ 404 := by
  exact ⟨rfl, by decide⟩

/-- C9 amended: a structured slot whose catalog id has no entry fails with a
400 Bad Request error naming the offending id (not the 404 NotFound kind);
a slot with a matching entry resolves with the catalog file locations and the
caller-supplied weight overrides taking precedence over catalog defaults; and
slots without an id reference or non-structured entries pass through
unchanged. -/
theorem resolve_loras_spec (cat : List Lora) (items : List LoraInput) :
    (∀ outs, resolveLorasList cat items = .ok outs → List.Forall₂ (loraRel cat) items outs)
    ∧ ((∃ i ∈ items, offendingLora cat i) →
        ∃ l, resolveLorasList cat items = .error ⟨400, "LoRA not found: " ++ l⟩
          ∧ (∃ hw lw, LoraInput.slot (some l) hw lw ∈ items) ∧ l ≠ ""
          ∧ cat.find? (fun x => x.id == l) = none)
    ∧ (items ≠ [] → resolveLoras cat (some items) = (resolveLorasList cat items).map some) := by
  refine ⟨?_, ?_, ?_⟩
  · induction items with
    | nil =>
        intro outs h
        simp only [resolveLorasList] at h
        injection h with h2
        rw [← h2]
        exact List.Forall₂.nil
    | cons i rest ih =>
        intro outs h
        simp only [resolveLorasList] at h
        cases hi : resolveLoraItem cat i with
        | error e => rw [hi] at h; exact absurd h (by simp)
        | ok o =>
            rw [hi] at h
            cases hr : resolveLorasList cat rest with
            | error e => rw [hr] at h; exact absurd h (by simp)
            | ok os =>
                rw [hr] at h
                injection h with h2
                rw [← h2]
                exact List.Forall₂.cons (resolveLoraItem_rel hi) (ih os hr)
  · induction items with
    | nil =>
        rintro ⟨i, hi, _⟩
        exact absurd hi (by simp)
    | cons i rest ih =>
        rintro ⟨i0, hi0, hoff⟩
        by_cases hcase : offendingLora cat i
        · obtain ⟨l, hw, lw, heq, hl, hfind⟩ := hcase
          subst heq
          refine ⟨l, ?_, ⟨hw, lw, List.mem_cons_self _ _⟩, hl, hfind⟩
          simp only [resolveLorasList, resolveLoraItem]
          rw [if_neg hl, hfind]
        · obtain ⟨o, ho⟩ := resolveLoraItem_ok_of_not_offending hcase
          have hi0r : i0 ∈ rest := by
            rcases List.mem_cons.mp hi0 with he | hr
            · rw [he] at hoff; exact absurd hoff hcase
            · exact hr
          obtain ⟨l, herr, ⟨hw, lw, hmem⟩, hl, hfind⟩ := ih ⟨i0, hi0r, hoff⟩
          refine ⟨l, ?_, ⟨hw, lw, List.mem_cons_of_mem _ hmem⟩, hl, hfind⟩
          simp only [resolveLorasList]
          rw [ho, herr]
  · intro hne
    cases items with
    | nil => exact absurd rfl hne
    | cons i rest => rfl

/-- C9 witness: the amended theorem applied to a three-slot list over the demo
catalog (legacy entry, resolvable reference with a caller weight override,
id-less dict), and to a list containing an unknown reference. -/
theorem resolve_loras_spec_witness :
    List.Forall₂ (loraRel demoLoraCat)
      [LoraInput.raw "legacy.safetensors", LoraInput.slot (some "aaa") (some 5) none,
       LoraInput.slot none none none]
      [LoraOut.passthrough (.raw "legacy.safetensors"),
       LoraOut.resolved ⟨"aaa", some "hf.safetensors", some "s3://loras/hf", 5,
                         some "lf.safetensors", some "s3://loras/lf", 8⟩,
       LoraOut.passthrough (.slot none none none)]
    ∧ ∃ l, resolveLorasList demoLoraCat [LoraInput.slot (some "bbb") none none] =
          .error ⟨400, "LoRA not found: " ++ l⟩
        ∧ (∃ hw lw, LoraInput.slot (some l) hw lw ∈
            [LoraInput.slot (some "bbb") none none]) ∧ l ≠ ""
        ∧ demoLoraCat.find? (fun x => x.id == l) = none := by
  constructor
  · exact (resolve_loras_spec demoLoraCat _).1 _ rfl
  · exact (resolve_loras_spec demoLoraCat _).2.1
      ⟨LoraInput.slot (some "bbb") none none, by simp,
       "bbb", none, none, rfl, by decide, rfl⟩

/-! ## C10 — segment status transitions are not validated -/

/-- C10 counterexample: `update_segment` does not reject `pending → completed`.
On a state whose only segment is `pending`, requesting status `completed`
succeeds (no InvalidStateTransition error) and the stored segment's status
becomes `completed`, refuting the claim that the change is rejected and the
segment left unchanged. -/
theorem update_segment_pending_to_completed_accepted :
    ((updateSegment 100 1 ⟨some "completed", none, none, none, none⟩ pendingSegState).toOption.map
        (fun p => p.1.status)) = some "completed"
    ∧ ((updateSegment 100 1 ⟨some "completed", none, none, none, none⟩ pendingSegState).toOption.bind
        (fun p => (findSeg p.2 1).map (fun g => g.status))) = some "completed" := by
  constructor <;> rfl

/-- C10 amended: `update_segment` performs no transition validation — whenever
the segment exists, any requested status value is applied verbatim, whatever
the current status is. -/
theorem update_segment_applies_any_status
    (st : DBState) (now : Int) (sid : Nat) (b : StatusUpdateBody) (g : Segment) (v : String)
    (hg : findSeg st sid = some g) (hv : b.status = some v) :
    ∃ p, updateSegment now sid b st = .ok p ∧ p.1.status = v := by
  have hs : (applyBody now b g).status = v := applyBody_status hv
  simp only [updateSegment, hg, hv]
  repeat' first
  | exact ⟨_, rfl, hs⟩
  | split

/-- C10 witness: the amended theorem applied to the pending-segment fixture. -/
theorem update_segment_applies_any_status_witness :
    ∃ p, updateSegment 100 1 ⟨some "completed", none, none, none, none⟩ pendingSegState = .ok p
      ∧ p.1.status = "completed" :=
  update_segment_applies_any_status pendingSegState 100 1
    ⟨some "completed", none, none, none, none⟩ (mkSeg 1 10 0 "pending" 5) "completed"
    (by decide) rfl

/-! ## C7 — retry clears claim and error fields but keeps the output artifacts -/

/-- C7 counterexample: retrying a failed segment whose `output_path` and
`last_frame_path` are set leaves both artifact references in place, refuting
the claim that retry clears the output artifact references. -/
theorem retry_segment_keeps_output_path :
    ((retrySegment 0 1 retryState).toOption.map
        (fun p => (p.1.status, p.1.outputPath, p.1.lastFramePath))) =
      some ("pending", some "s3://jobs/out.mp4", some "s3://jobs/last.png") := by
  rfl

/-- C7 amended: `retry_segment` succeeds only on a `failed` segment; on success
the segment returns to `pending` with the worker identity, worker name, claim
timestamp, completion timestamp, error message and progress text cleared, the
output artifact references (`output_path`, `last_frame_path`) retained, and
the owning job set to `pending`. -/
theorem retry_segment_spec
    (uid sid : Nat) (st : DBState) (g : Segment) (j : Job)
    (hg : findSeg st sid = some g) (hj : findJob st g.jobId = some j) (hu : j.userId = uid) :
    (g.status ≠ "failed" → ∃ e, retrySegment uid sid st = .error e ∧ e.code = 400)
    ∧ (g.status = "failed" →
        ∃ g2 st2, retrySegment uid sid st = .ok (g2, st2)
          ∧ g2.status = "pending" ∧ g2.workerId = none ∧ g2.workerName = none
          ∧ g2.claimedAt = none ∧ g2.completedAt = none ∧ g2.errorMessage = none
          ∧ g2.progressLog = none
          ∧ g2.outputPath = g.outputPath ∧ g2.lastFramePath = g.lastFramePath
          ∧ findSeg st2 sid = some g2
          ∧ (findJob st2 j.id).map Job.status = some "pending") := by
  have hgid : g.id = sid := by
    have := List.find?_some hg
    simpa using this
  have hjid : j.id = g.jobId := by
    have := List.find?_some hj
    simpa using this
  simp only [retrySegment, hg, hj]
  rw [if_neg (not_not_intro hu)]
  constructor
  · intro hf
    rw [if_pos hf]
    exact ⟨_, rfl, rfl⟩
  · intro hf
    rw [if_neg (not_not_intro hf)]
    refine ⟨_, _, rfl, rfl, rfl, rfl, rfl, rfl, rfl, rfl, rfl, rfl, ?_, ?_⟩
    · exact find?_map_replace Segment.id sid _ st.segments g hg hgid
    · have hjf : st.jobs.find? (fun x => x.id == j.id) = some j := by
        rw [show (fun (x : Job) => x.id == j.id) = (fun x => x.id == g.jobId) by
          funext x; rw [hjid]]
        exact hj
      have h2 := find?_map_update Job.id j.id (fun x => {x with status := "pending"}) st.jobs j hjf
        (fun _ => rfl)
      simp only [setJobStatus, findJob]
      rw [h2]
      rfl

/-! ## C1 — no segment is delivered to two callers -/

theorem sweepSeg_id (now : Int) (g : Segment) : (sweepSeg now g).id = g.id := by
  unfold sweepSeg
  split <;> rfl

theorem map_id_sweep (now : Int) (st : DBState) :
    (sweep now st).segments.map Segment.id = st.segments.map Segment.id := by
  simp only [sweep]
  rw [List.map_map]
  apply List.map_congr_left
  intro g _
  exact sweepSeg_id now g

theorem claimNext_map_id (now : Int) (wid : Nat) (wn : Option String) (st : DBState) :
    ((claimNext now wid wn st).2.segments.map Segment.id) = st.segments.map Segment.id := by
  cases hsel : selMin (eligPairs (sweep now st)) with
  | none =>
      simp only [claimNext, claimStage2, hsel]
      exact map_id_sweep now st
  | some x =>
      obtain ⟨g0, j0⟩ := x
      simp only [claimNext, claimStage2, hsel]
      rw [List.map_map]
      have h1 : ((sweep now st).segments.map
          (Segment.id ∘ fun gg => if gg.id == g0.id then claimedSeg now wid wn g0 else gg))
          = (sweep now st).segments.map Segment.id := by
        apply List.map_congr_left
        intro gg _
        by_cases h : (gg.id == g0.id) = true
        · have hgg : gg.id = g0.id := by simpa using h
          simp only [Function.comp_apply, if_pos h]
          rw [hgg]
          rfl
        · simp only [Function.comp_apply, if_neg h]
      rw [h1]
      exact map_id_sweep now st

theorem sweepSeg_of_fresh {t0 now tc : Int} {g : Segment}
    (htc : g.claimedAt = some tc) (h1 : t0 ≤ tc) (h2 : now < t0 + 30) :
    sweepSeg now g = g := by
  have hns : isStale now g = false := by
    simp only [isStale, htc]
    have : ¬ (tc < now - 30) := by omega
    simp [this]
  unfold sweepSeg
  rw [hns]
  simp

theorem claimNext_fresh_and_inv (t0 : Int) (claimed : List Nat) (st : DBState)
    (now : Int) (wid : Nat) (wn : Option String)
    (hnd : (st.segments.map Segment.id).Nodup)
    (hinv : ClaimedInv t0 claimed st)
    (ht1 : t0 ≤ now) (ht2 : now < t0 + 30) :
    (∀ v st2, claimNext now wid wn st = (some v, st2) →
        v.id ∉ claimed ∧ ClaimedInv t0 (v.id :: claimed) st2)
    ∧ (∀ st2, claimNext now wid wn st = (none, st2) → ClaimedInv t0 claimed st2) := by
  have hndsw : ((sweep now st).segments.map Segment.id).Nodup := by
    rw [map_id_sweep]
    exact hnd
  have hmemsw : ∀ i ∈ claimed, ∃ g ∈ (sweep now st).segments,
      g.id = i ∧ g.status = "claimed" ∧ ∃ tc, g.claimedAt = some tc ∧ t0 ≤ tc := by
    intro i hi
    obtain ⟨gc, hgc, hid, hstat, tc, htc, htle⟩ := hinv i hi
    have heq : sweepSeg now gc = gc := sweepSeg_of_fresh htc htle ht2
    refine ⟨gc, ?_, hid, hstat, tc, htc, htle⟩
    rw [← heq]
    exact List.mem_map_of_mem (sweepSeg now) hgc
  constructor
  · intro v st2 h2
    cases hsel : selMin (eligPairs (sweep now st)) with
    | none =>
        exfalso
        simp only [claimNext, claimStage2, hsel] at h2
        have := congrArg Prod.fst h2
        exact absurd this (by simp)
    | some x =>
        obtain ⟨g0, j0⟩ := x
        obtain ⟨hm0, _, hgs0, _⟩ := mem_eligPairs.mp (selMin_mem hsel)
        simp only [claimNext, claimStage2, hsel] at h2
        have hvid : v.id = g0.id := by
          have h3 := congrArg Prod.fst h2
          simp only at h3
          injection h3 with h4
          rw [← h4]
        have hseg : st2.segments = (sweep now st).segments.map
            (fun gg => if gg.id == g0.id then claimedSeg now wid wn g0 else gg) := by
          have h3 := congrArg Prod.snd h2
          simp only at h3
          rw [← h3]
        have hfresh : v.id ∉ claimed := by
          intro hin
          obtain ⟨gc, hgc, hid, hstat, tc, htc, htle⟩ := hmemsw v.id hin
          have : gc = g0 := by
            apply List.inj_on_of_nodup_map hndsw hgc hm0
            rw [hid, hvid]
          rw [this] at hstat
          rw [hgs0] at hstat
          exact absurd hstat (by decide)
        refine ⟨hfresh, ?_⟩
        intro i hi
        rcases List.mem_cons.mp hi with he | hold
        · refine ⟨claimedSeg now wid wn g0, ?_, ?_, rfl, now, rfl, ht1⟩
          · rw [hseg]
            exact List.mem_map.mpr ⟨g0, hm0, by simp⟩
          · rw [he, hvid]
            rfl
        · obtain ⟨gc, hgc, hid, hstat, tc, htc, htle⟩ := hmemsw i hold
          refine ⟨gc, ?_, hid, hstat, tc, htc, htle⟩
          rw [hseg]
          have hne : (gc.id == g0.id) = false := by
            simp only [beq_eq_false_iff_ne, ne_eq]
            intro he2
            apply hfresh
            rw [hvid, ← he2, hid]
            exact hold
          exact List.mem_map.mpr ⟨gc, hgc, by simp [hne]⟩
  · intro st2 h2
    cases hsel : selMin (eligPairs (sweep now st)) with
    | none =>
        have hst2 : st2 = sweep now st := by
          simp only [claimNext, claimStage2, hsel] at h2
          exact (congrArg Prod.snd h2).symm
        intro i hi
        obtain ⟨gc, hgc, hprops⟩ := hmemsw i hi
        exact ⟨gc, by rw [hst2]; exact hgc, hprops⟩
    | some x =>
        exfalso
        obtain ⟨g0, j0⟩ := x
        simp only [claimNext, claimStage2, hsel] at h2
        have := congrArg Prod.fst h2
        exact absurd this (by simp)

theorem runClaims_aux (t0 : Int) :
    ∀ (calls : List (Int × Nat × Option String)) (st : DBState) (claimed : List Nat),
      (st.segments.map Segment.id).Nodup →
      ClaimedInv t0 claimed st →
      (∀ c ∈ calls, t0 ≤ c.1 ∧ c.1 < t0 + 30) →
      (∀ i ∈ (runClaims st calls).1.filterMap (fun x => x), i ∉ claimed)
      ∧ ((runClaims st calls).1.filterMap (fun x => x)).Nodup := by
  intro calls
  induction calls with
  | nil =>
      intro st claimed _ _ _
      exact ⟨by simp [runClaims], by simp [runClaims]⟩
  | cons c rest ih =>
      intro st claimed hnd hinv htimes
      obtain ⟨ht1, ht2⟩ := htimes c (List.mem_cons_self c rest)
      have htimes2 : ∀ c2 ∈ rest, t0 ≤ c2.1 ∧ c2.1 < t0 + 30 :=
        fun c2 hc2 => htimes c2 (List.mem_cons_of_mem c hc2)
      cases hr : claimNext c.1 c.2.1 c.2.2 st with
      | mk res st' =>
          have hnd2 : (st'.segments.map Segment.id).Nodup := by
            have hmi := claimNext_map_id c.1 c.2.1 c.2.2 st
            rw [hr] at hmi
            simp only at hmi
            rw [hmi]
            exact hnd
          have hrun : (runClaims st (c :: rest)).1
              = (res.map (fun v => v.id)) :: (runClaims st' rest).1 := by
            simp only [runClaims, hr]
          cases res with
          | none =>
              have hinv2 : ClaimedInv t0 claimed st' :=
                (claimNext_fresh_and_inv t0 claimed st c.1 c.2.1 c.2.2
                  hnd hinv ht1 ht2).2 st' hr
              obtain ⟨hni, hnd3⟩ := ih st' claimed hnd2 hinv2 htimes2
              rw [hrun]
              simp only [Option.map, List.filterMap_cons]
              exact ⟨hni, hnd3⟩
          | some v =>
              obtain ⟨hfresh, hinv2⟩ :=
                (claimNext_fresh_and_inv t0 claimed st c.1 c.2.1 c.2.2
                  hnd hinv ht1 ht2).1 v st' hr
              obtain ⟨hni, hnd3⟩ := ih st' (v.id :: claimed) hnd2 hinv2 htimes2
              rw [hrun]
              simp only [Option.map, List.filterMap_cons]
              constructor
              · intro i hi
                rcases List.mem_cons.mp hi with he | hm
                · rw [he]; exact hfresh
                · intro hic
                  exact (hni i hm) (List.mem_cons_of_mem _ hic)
              · apply List.Pairwise.cons
                · intro i hi heq
                  exact (hni i hi) (by rw [← heq]; exact List.mem_cons_self _ _)
                · exact hnd3

/-- C1: a serialized run of `claim_next_segment` calls whose times all lie in
one 30-minute staleness window never returns the same segment id to two
callers: every successfully claimed segment goes to exactly one worker.
(Concurrency model: the store serializes the row-locked claim transactions,
so N concurrent calls execute as some sequential order of the same atomic
transactions; `skip_locked` only prevents blocking, selection among unlocked
rows is unchanged.) -/
theorem claim_next_no_double_delivery (st : DBState) (t0 : Int)
    (calls : List (Int × Nat × Option String))
    (hnd : (st.segments.map Segment.id).Nodup)
    (htimes : ∀ c ∈ calls, t0 ≤ c.1 ∧ c.1 < t0 + 30) :
    ((runClaims st calls).1.filterMap (fun x => x)).Nodup :=
  (runClaims_aux t0 calls st [] hnd
    (fun i hi => absurd hi (List.not_mem_nil i)) htimes).2

/-- C1 witness: two calls at time 100 against the two-pending-segment fixture
claim segments 1 and 2 — distinct ids, one per caller. -/
theorem claim_next_no_double_delivery_witness :
    ((runClaims twoSegState [(100, 7, some "w1"), (100, 8, some "w2")]).1.filterMap
        (fun x => x)).Nodup
    ∧ (runClaims twoSegState [(100, 7, some "w1"), (100, 8, some "w2")]).1
        = [some 1, some 2] :=
  ⟨claim_next_no_double_delivery twoSegState 100 _ (by decide) (by decide),
   by decide⟩

/-! ## C4 — job resolution when the last active segment finishes -/

theorem findJob_set_segments (st : DBState) (ss : List Segment) (jid : Nat) :
    findJob {st with segments := ss} jid = findJob st jid := rfl

theorem find?_jobs_setStatus {jobs : List Job} {j : Job} {jid : Nat}
    (h : jobs.find? (fun x => x.id == jid) = some j) (s : String) :
    (jobs.map (fun x => if x.id == jid then {x with status := s} else x)).find?
      (fun x => x.id == jid) = some {j with status := s} :=
  find?_map_update Job.id jid (fun x => {x with status := s}) jobs j h (fun _ => rfl)

/-- C4: when `report_segment_status` reports `completed` or `failed` and
afterwards no segment of the job is `pending`/`claimed`/`processing`, the job
resolves to exactly one of: `finalized` when the segment completed and
carries `auto_finalize` (also creating a new pending Video and scheduling the
stitch pipeline on it), `failed` when it failed, `awaiting` when it completed
without `auto_finalize`. -/
theorem update_segment_resolves_job
    (st : DBState) (now : Int) (sid : Nat) (b : StatusUpdateBody) (g : Segment) (j : Job)
    (v : String)
    (hg : findSeg st sid = some g) (hj : findJob st g.jobId = some j)
    (hv : b.status = some v) (hvv : v = "completed" ∨ v = "failed") :
    ∀ g2 st2, updateSegment now sid b st = .ok (g2, st2) →
      st2.segments.filter (fun gg => gg.jobId == j.id && isActive gg) = [] →
      ((v = "completed" ∧ g.autoFinalize = true →
          (findJob st2 j.id).map Job.status = some "finalized"
          ∧ ∃ vd, vd ∈ st2.videos ∧ vd.jobId = j.id ∧ vd.status = "pending"
              ∧ (vd.id, j.id) ∈ st2.stitchTasks)
      ∧ (v = "failed" → (findJob st2 j.id).map Job.status = some "failed")
      ∧ (v = "completed" ∧ g.autoFinalize = false →
          (findJob st2 j.id).map Job.status = some "awaiting")) := by
  intro g2 st2 hok hempty
  have hjid : j.id = g.jobId := by
    have := List.find?_some hj
    simpa using this
  have hbv : (v == "completed" || v == "failed") = true := by
    rcases hvv with h | h <;> simp [h]
  have hjfind : st.jobs.find? (fun x => x.id == j.id) = some j := by
    rw [show (fun (x : Job) => x.id == j.id) = (fun x => x.id == g.jobId) by
      funext x; rw [hjid]]
    exact hj
  simp only [updateSegment, hg, hv, findJob_set_segments, hbv, eq_self_iff_true,
    if_true, hj] at hok
  split at hok
  · rename_i hcond
    split at hok
    · rename_i hfin
      obtain ⟨haf, hvc⟩ := (Bool.and_eq_true _ _).mp hfin
      have hvcs : v = "completed" := by simpa using hvc
      have hafs : g.autoFinalize = true := by
        rw [applyBody_autoFinalize] at haf
        exact haf
      injection hok with hpair
      have st2eq := congrArg Prod.snd hpair
      simp only at st2eq
      refine ⟨?_, ?_, ?_⟩
      · intro _
        constructor
        · rw [← st2eq]
          simp only [findJob, setJobStatus]
          rw [find?_jobs_setStatus hjfind "finalized"]
          rfl
        · refine ⟨⟨st.nextVideoId, j.id, "pending"⟩, ?_, rfl, rfl, ?_⟩
          · rw [← st2eq]
            exact List.mem_append_right _ (List.mem_singleton.mpr rfl)
          · rw [← st2eq]
            exact List.mem_append_right _ (List.mem_singleton.mpr rfl)
      · intro hvf
        rw [hvf] at hvcs
        exact absurd hvcs (by decide)
      · rintro ⟨_, haf2⟩
        rw [hafs] at haf2
        exact absurd haf2 (by decide)
    · rename_i hfin
      split at hok
      · rename_i hfail
        have hvfs : v = "failed" := by simpa using hfail
        injection hok with hpair
        have st2eq := congrArg Prod.snd hpair
        simp only at st2eq
        refine ⟨?_, ?_, ?_⟩
        · rintro ⟨hvc, _⟩
          rw [hvc] at hvfs
          exact absurd hvfs (by decide)
        · intro _
          rw [← st2eq]
          simp only [findJob, setJobStatus]
          rw [find?_jobs_setStatus hjfind "failed"]
          rfl
        · rintro ⟨hvc, _⟩
          rw [hvc] at hvfs
          exact absurd hvfs (by decide)
      · rename_i hfail
        have hvcs : v = "completed" := by
          rcases hvv with h | h
          · exact h
          · exfalso
            apply hfail
            simp [h]
        injection hok with hpair
        have st2eq := congrArg Prod.snd hpair
        simp only at st2eq
        refine ⟨?_, ?_, ?_⟩
        · rintro ⟨_, haf2⟩
          exfalso
          apply hfin
          rw [applyBody_autoFinalize, haf2]
          simp [hvcs]
        · intro hvf
          rw [hvf] at hvcs
          exact absurd hvcs (by decide)
        · intro _
          rw [← st2eq]
          simp only [findJob, setJobStatus]
          rw [find?_jobs_setStatus hjfind "awaiting"]
          rfl
  · rename_i hcond
    exfalso
    injection hok with hpair
    have st2eq := congrArg Prod.snd hpair
    simp only at st2eq
    apply hcond
    rw [← st2eq] at hempty
    simp only [hempty]
    rfl

/-- C4 witness: the amended theorem applied to the auto-finalize fixture —
reporting `completed` on its only (auto-finalize) segment yields the
concrete post-state `finalizedState`: job finalized, one pending Video, one
scheduled stitch task. -/
theorem update_segment_resolves_job_witness :
    (("completed" = "completed" ∧ ({mkSeg 1 10 0 "pending" 5 with
          autoFinalize := true} : Segment).autoFinalize = true →
        (findJob finalizedState 10).map Job.status = some "finalized"
        ∧ ∃ vd, vd ∈ finalizedState.videos ∧ vd.jobId = 10 ∧ vd.status = "pending"
            ∧ (vd.id, 10) ∈ finalizedState.stitchTasks)
    ∧ ("completed" = "failed" →
        (findJob finalizedState 10).map Job.status = some "failed")
    ∧ ("completed" = "completed" ∧ ({mkSeg 1 10 0 "pending" 5 with
          autoFinalize := true} : Segment).autoFinalize = false →
        (findJob finalizedState 10).map Job.status = some "awaiting")) :=
  update_segment_resolves_job finalizeState 100 1 ⟨some "completed", none, none, none, none⟩
    {mkSeg 1 10 0 "pending" 5 with autoFinalize := true} (mkJob 10 0 "processing" 0)
    "completed" (by decide) (by decide) rfl (Or.inl rfl) finalizedSeg finalizedState
    rfl (by decide)

/-! ## C5 — reorder accepts any owned duplicate-free id list, not only the full set -/

theorem reorder_matched_iff (uid : Nat) (ids : List Nat) (st : DBState) :
    (ids.dedup.filter
        (fun i => st.jobs.any (fun j => j.id == i && j.userId == uid))).length = ids.length
      ↔ reorderOk uid ids st := by
  constructor
  · intro hlen
    have hsub1 : (ids.dedup.filter
        (fun i => st.jobs.any (fun j => j.id == i && j.userId == uid))).Sublist ids.dedup :=
      List.filter_sublist _
    have hsub2 : ids.dedup.Sublist ids := List.dedup_sublist ids
    have hle1 := hsub1.length_le
    have hle2 := hsub2.length_le
    have hdl : ids.dedup.length = ids.length := by omega
    have hded : ids.dedup = ids := hsub2.eq_of_length hdl
    have hnd : ids.Nodup := by
      rw [← hded]
      exact List.nodup_dedup ids
    have hfl : (ids.filter
        (fun i => st.jobs.any (fun j => j.id == i && j.userId == uid))) = ids := by
      have hlen2 := hlen
      rw [hded] at hlen2
      exact (List.filter_sublist ids).eq_of_length hlen2
    refine ⟨hnd, fun i hi => ?_⟩
    have hp := List.filter_eq_self.mp hfl i hi
    obtain ⟨j, hjmem, hjp⟩ := List.any_eq_true.mp hp
    exact ⟨j, hjmem, by
      have := (Bool.and_eq_true _ _).mp hjp
      exact ⟨by simpa using this.1, by simpa using this.2⟩⟩
  · rintro ⟨hnd, hown⟩
    have hded : ids.dedup = ids := List.dedup_eq_self.mpr hnd
    rw [hded]
    congr 1
    apply List.filter_eq_self.mpr
    intro i hi
    obtain ⟨j, hjmem, hji, hju⟩ := hown i hi
    exact List.any_eq_true.mpr ⟨j, hjmem, by simp [hji, hju]⟩

theorem reorder_foldl_outer (uid : Nat) :
    ∀ (l : List (Nat × Nat)) (js : List Job),
      l.foldl (fun js p => js.map (fun j =>
          if j.id == p.2 && j.userId == uid then {j with priority := (p.1 : Int)} else j)) js
        = js.map (fun j => l.foldl (fun j p =>
            if j.id == p.2 && j.userId == uid then {j with priority := (p.1 : Int)} else j) j) := by
  intro l
  induction l with
  | nil => intro js; simp
  | cons p l ih =>
      intro js
      simp only [List.foldl_cons]
      rw [ih, List.map_map]
      rfl

theorem reorder_foldl_inner (uid : Nat) :
    ∀ (ids : List Nat) (n : Nat) (j : Job), ids.Nodup →
      (List.enumFrom n ids).foldl (fun j p =>
          if j.id == p.2 && j.userId == uid then {j with priority := (p.1 : Int)} else j) j
        = if j.userId = uid ∧ j.id ∈ ids
          then {j with priority := ((n + ids.indexOf j.id : Nat) : Int)} else j := by
  intro ids
  induction ids with
  | nil => intro n j _; simp
  | cons x xs ih =>
      intro n j hnd
      have hnd2 : xs.Nodup := hnd.of_cons
      have hxnot : x ∉ xs := by
        have := List.nodup_cons.mp hnd
        exact this.1
      simp only [List.enumFrom, List.foldl_cons]
      by_cases hc : j.id = x ∧ j.userId = uid
      · rw [if_pos (by simp [hc.1, hc.2])]
        rw [ih (n + 1) _ hnd2]
        rw [if_neg (by
          rintro ⟨_, hmem⟩
          simp only at hmem
          rw [hc.1] at hmem
          exact hxnot hmem)]
        rw [if_pos ⟨hc.2, by simp [hc.1]⟩]
        have hidx : List.indexOf j.id (x :: xs) = 0 := by
          rw [hc.1]
          exact List.indexOf_cons_self x xs
        rw [hidx]
        simp
      · rw [if_neg (by
          intro hb
          have := (Bool.and_eq_true _ _).mp hb
          exact hc ⟨by simpa using this.1, by simpa using this.2⟩)]
        rw [ih (n + 1) _ hnd2]
        by_cases hu : j.userId = uid
        · have hne : j.id ≠ x := fun he => hc ⟨he, hu⟩
          by_cases hm : j.id ∈ xs
          · rw [if_pos ⟨hu, hm⟩, if_pos ⟨hu, by simp [hm]⟩]
            rw [List.indexOf_cons_ne xs hne.symm]
            congr 1
            push_cast
            ring
          · rw [if_neg (by rintro ⟨_, hmm⟩; exact hm hmm),
                if_neg (by
                  rintro ⟨_, hmm⟩
                  rcases List.mem_cons.mp hmm with he | hm2
                  · exact hne he
                  · exact hm hm2)]
        · rw [if_neg (by rintro ⟨hu2, _⟩; exact hu hu2),
              if_neg (by rintro ⟨hu2, _⟩; exact hu hu2)]

/-- C5 counterexample: with user 0 owning exactly jobs 10 and 11, the call
`reorder_jobs(user 0, [10])` supplies a strict subset of the owned set and
nevertheless succeeds, assigning priority 0 to job 10 and leaving job 11
untouched — refuting the claim that a strict subset fails with
ValidationError. -/
theorem reorder_jobs_accepts_strict_subset :
    ((reorderJobs 0 [10] twoJobState).toOption.map
        (fun s => s.jobs.map (fun j => (j.id, j.priority)))) = some [(10, 0), (11, 1)] := by
  rfl

/-- C5 amended: `reorder_jobs` rejects an empty list, and rejects a list that
has duplicates or contains any id not naming a job of the caller; any other
list — including a strict subset of the owner's jobs — succeeds, assigning
priorities `0..N-1` to the listed jobs following the supplied order and
leaving every other job and every other column untouched. -/
theorem reorder_jobs_spec (uid : Nat) (ids : List Nat) (st : DBState) :
    (ids = [] → reorderJobs uid ids st = .error ⟨400, "job_ids must not be empty"⟩)
    ∧ (ids ≠ [] → ¬ reorderOk uid ids st →
        reorderJobs uid ids st = .error ⟨400, "Some job IDs not found or not owned by you"⟩)
    ∧ (ids ≠ [] → reorderOk uid ids st →
        ∃ st2, reorderJobs uid ids st = .ok st2
          ∧ st2.jobs = st.jobs.map (fun j =>
              if j.userId = uid ∧ j.id ∈ ids
              then {j with priority := ((ids.indexOf j.id : Nat) : Int)} else j)
          ∧ st2.segments = st.segments ∧ st2.videos = st.videos) := by
  refine ⟨?_, ?_, ?_⟩
  · intro he
    subst he
    rfl
  · intro hne hbad
    simp only [reorderJobs]
    rw [if_neg (by simpa using hne)]
    rw [if_pos (by
      intro hlen
      exact hbad ((reorder_matched_iff uid ids st).mp hlen))]
  · intro hne hok
    simp only [reorderJobs]
    rw [if_neg (by simpa using hne)]
    rw [if_neg (not_not_intro ((reorder_matched_iff uid ids st).mpr hok))]
    refine ⟨_, rfl, ?_, rfl, rfl⟩
    have houter := reorder_foldl_outer uid ids.enum st.jobs
    rw [show ids.enum = List.enumFrom 0 ids from rfl] at houter
    rw [show ids.enum = List.enumFrom 0 ids from rfl, houter]
    apply List.map_congr_left
    intro j _
    rw [reorder_foldl_inner uid ids 0 j hok.1]
    simp

/-- C5 witness: the amended theorem applied to the two-job fixture with the
full owned set in reversed order, yielding priorities B=0, A=1. -/
theorem reorder_jobs_spec_witness :
    ∃ st2, reorderJobs 0 [11, 10] twoJobState = .ok st2
      ∧ st2.jobs = twoJobState.jobs.map (fun j =>
          if j.userId = 0 ∧ j.id ∈ ([11, 10] : List Nat)
          then {j with priority := ((([11, 10] : List Nat).indexOf j.id : Nat) : Int)} else j)
      ∧ st2.segments = twoJobState.segments ∧ st2.videos = twoJobState.videos :=
  (reorder_jobs_spec 0 [11, 10] twoJobState).2.2 (by decide)
    ⟨by decide, by decide⟩

/-- C7 witness: the amended theorem applied to the retry fixture. -/
theorem retry_segment_spec_witness :
    (retrySeg.status ≠ "failed" → ∃ e, retrySegment 0 1 retryState = .error e ∧ e.code = 400)
    ∧ (retrySeg.status = "failed" →
        ∃ g2 st2, retrySegment 0 1 retryState = .ok (g2, st2)
          ∧ g2.status = "pending" ∧ g2.workerId = none ∧ g2.workerName = none
          ∧ g2.claimedAt = none ∧ g2.completedAt = none ∧ g2.errorMessage = none
          ∧ g2.progressLog = none
          ∧ g2.outputPath = retrySeg.outputPath ∧ g2.lastFramePath = retrySeg.lastFramePath
          ∧ findSeg st2 1 = some g2
          ∧ (findJob st2 10).map Job.status = some "pending") :=
  retry_segment_spec 0 1 retryState retrySeg (mkJob 10 0 "failed" 0)
    (by decide) (by decide) rfl

end Wanly
